import Mathlib

/-!
Verification of the scrambleText repository (bermudi/scrambleText.ts).

The repository contains three closely related implementations of a
text-scramble reveal animation:

* `src/src/scrambleText.ts` (first copy, called the "main" variant here):
  configurable easing, `preserveOriginal`, iteration modes
  (`once`/`loop`/`reverse`/`alternate`), a progress-length reveal
  (`currentLength = Math.ceil(textLength * easedProgress)`).
* `src/src/scrambleText.ts` (second copy after the separator, called the
  "V2" variant here): the same progress-length reveal without easing,
  preservation or iteration modes.
* `src/unnamed/part_000` (called the "part" variant here): a
  threshold-by-index reveal with a cached scramble that is re-rolled at
  most every `speed` milliseconds, a synchronous pre-initialization
  scramble, and an `onComplete` callback.

The embedding below models JS strings as `List Char`, JS numbers involved
in the timing logic as `ℚ` (the code only adds, subtracts, divides and
compares them; no claim exercises float rounding), the stream of
`Math.random()` results as a function `rand : ℕ → ℚ` consumed at an
explicit cursor, and JS `undefined` resulting from an out-of-bounds string
index as `Option.none`.  `requestAnimationFrame` is modelled by an
at-most-one pending callback slot (`Option ℕ`) plus a fresh-id counter;
running a frame consumes the pending slot before invoking the callback.
Writes to `element.textContent` are logged in order in a `writes` list.
-/

/-- JS string concatenation `result += x` where `x : Option Char` is a
character-indexing result: `undefined` stringifies to `"undefined"`. -/
def jsStr (o : Option Char) : List Char :=
  match o with
  | some c => [c]
  | none => "undefined".data

/-- JS `Array.prototype.join('')` on an array of characters possibly
holding `undefined`: `undefined` elements stringify to the empty string. -/
def joinArr (l : List (Option Char)) : List Char :=
  l.filterMap id

/-- JS truthiness test used on `delayStartTime` (a `number | null`):
`null` and `0` are falsy. -/
def isFalsyOptQ (o : Option ℚ) : Bool :=
  match o with
  | none => true
  | some q => decide (q = 0)

/-- JS numeric coercion of a `number | null` used in arithmetic
(`null` coerces to `0`). -/
def jsNumber (o : Option ℚ) : ℚ :=
  o.getD 0

/-- JS indexing `s[i]` on a string: `undefined` when out of bounds. -/
def jsIndex (l : List Char) (i : ℕ) : Option Char :=
  l.get? i

/-- The shared random-character pick
`chars[Math.floor(Math.random() * chars.length)]`, at cursor `k` of the
`Math.random()` stream.  With an empty `chars` the index is `0` and the
lookup is `undefined` (`none`). -/
def getRandomChar (chars : List Char) (rand : ℕ → ℚ) (k : ℕ) : Option Char :=
  chars.get? (Int.toNat (Int.floor (rand k * (chars.length : ℚ))))

/-- The reveal-range test of the progress-length policy, shared verbatim by
the main and V2 variants:
`rightToLeft ? i >= textLength - currentLength : i < currentLength`.
`currentLength` is kept as an integer because JS computes
`Math.ceil(textLength * progress)` without clamping. -/
def revealedPL (n : ℕ) (currentLength : ℤ) (rtl : Bool) (i : ℕ) : Prop :=
  if rtl then (n : ℤ) - currentLength ≤ (i : ℤ) else (i : ℤ) < currentLength

instance (n : ℕ) (c : ℤ) (rtl : Bool) (i : ℕ) : Decidable (revealedPL n c rtl i) := by
  unfold revealedPL
  split <;> infer_instance

/-- Body of the V2 variant's `updateText` loop
(`src/src/scrambleText.ts` lines 262-288): walks `finalText` with index
`i` and random cursor `k`, appending the final character inside the
revealed range and a random glyph outside it. -/
def updateTextV2Go (chars : List Char) (rand : ℕ → ℚ) (n : ℕ) (cL : ℤ)
    (rtl : Bool) : List Char → ℕ → ℕ → List Char × ℕ
  | [], _, k => ([], k)
  | c :: rest, i, k =>
    if revealedPL n cL rtl i then
      let t := updateTextV2Go chars rand n cL rtl rest (i + 1) k
      (c :: t.1, t.2)
    else
      let t := updateTextV2Go chars rand n cL rtl rest (i + 1) (k + 1)
      (jsStr (getRandomChar chars rand k) ++ t.1, t.2)

/-- The V2 variant's `updateText(progress)`
(`src/src/scrambleText.ts` lines 262-288):
`currentLength = Math.ceil(targetLength * progress)`, then reveal the
front (or the back when `rightToLeft`) `currentLength` characters and
scramble the rest.  Returns the built string together with the advanced
random cursor. -/
def updateTextV2 (text chars : List Char) (rtl : Bool) (rand : ℕ → ℚ)
    (k0 : ℕ) (progress : ℚ) : List Char × ℕ :=
  updateTextV2Go chars rand text.length
    (Int.ceil ((text.length : ℚ) * progress)) rtl text 0 k0

/-- Iteration modes of the main variant (`'once' | 'loop' | 'reverse' |
'alternate'`). -/
inductive IterationMode where
  | once
  | loopMode
  | reverse
  | alternate
  deriving DecidableEq, Repr

/-- Configuration of the main variant's `scrambleText`
(`src/src/scrambleText.ts` lines 13-53), after defaults are applied.
`speed` is destructured by the source but never used by this variant. -/
structure MainCfg where
  text : List Char
  chars : List Char
  duration : ℚ
  speed : ℚ
  delay : ℚ
  inView : Bool
  rightToLeft : Bool
  ease : ℚ → ℚ
  preserveOriginal : Bool
  iteration : IterationMode
  customRandom : Option (ℕ → Char → Char)

/-- The mutable `AnimationState` record of the main variant
(`src/src/scrambleText.ts` lines 4-11, initialised at lines 55-62). -/
structure AnimationState where
  direction : ℤ
  iterationCount : ℕ
  frame : Option ℕ
  startTime : Option ℚ
  delayStartTime : Option ℚ
  isInDelayPhase : Bool
  deriving DecidableEq, Repr

/-- A main-variant run: the closure state plus the modelled environment —
the target's text content, the at-most-one pending frame callback, a
fresh-id counter for `requestAnimationFrame`, the `Math.random()` cursor,
and the ordered log of every write to `element.textContent`. -/
structure MainRun where
  st : AnimationState
  target : List Char
  pending : Option ℕ
  nextId : ℕ
  rngK : ℕ
  writes : List (List Char)
  deriving DecidableEq, Repr

/-- `element.textContent = w`. -/
def writeTarget (w : List Char) (r : MainRun) : MainRun :=
  { r with target := w, writes := r.writes ++ [w] }

/-- `state.frame = requestAnimationFrame(animate)`: allocate a fresh
callback id, record it both in the state and as the pending callback. -/
def scheduleFrame (r : MainRun) : MainRun :=
  { r with st := { r.st with frame := some r.nextId },
           pending := some r.nextId, nextId := r.nextId + 1 }

/-- `cancelAnimationFrame(id)`: deschedule the pending callback if it is
the given one; a no-op otherwise. -/
def cancelAF (id : ℕ) (p : Option ℕ) : Option ℕ :=
  if p = some id then none else p

/-- The main variant's `getRandomChar(index, originalChar)`
(`src/src/scrambleText.ts` lines 68-73): a `customRandom` override is
used as-is (consuming no randomness), otherwise a pick from `chars`
consumes one `Math.random()` draw. -/
def getRandomCharMain (cfg : MainCfg) (rand : ℕ → ℚ) (k i : ℕ)
    (orig : Char) : Option Char × ℕ :=
  match cfg.customRandom with
  | some f => (some (f i orig), k)
  | none => (getRandomChar cfg.chars rand k, k + 1)

/-- Body of the main variant's `getScrambledText`
(`src/src/scrambleText.ts` lines 75-86): non-alphabet characters are kept
when `preserveOriginal`, every other position gets a random glyph. -/
def getScrambledGo (cfg : MainCfg) (rand : ℕ → ℚ) :
    List Char → ℕ → ℕ → List (Option Char) × ℕ
  | [], _, k => ([], k)
  | c :: rest, i, k =>
    if cfg.preserveOriginal = true ∧ c ∉ cfg.chars then
      let t := getScrambledGo cfg rand rest (i + 1) k
      (some c :: t.1, t.2)
    else
      let g := getRandomCharMain cfg rand k i c
      let t := getScrambledGo cfg rand rest (i + 1) g.2
      (g.1 :: t.1, t.2)

/-- The main variant's `getScrambledText()` joined with
`Array.prototype.join('')`. -/
def getScrambledText (cfg : MainCfg) (rand : ℕ → ℚ) (k : ℕ) :
    List Char × ℕ :=
  let t := getScrambledGo cfg rand cfg.text 0 k
  (joinArr t.1, t.2)

/-- Body of the main variant's `updateText`
(`src/src/scrambleText.ts` lines 88-104): preserved non-alphabet
characters first, then the progress-length reveal range, then random
glyphs. -/
def updateTextMainGo (cfg : MainCfg) (rand : ℕ → ℚ) (n : ℕ) (cL : ℤ) :
    List Char → ℕ → ℕ → List (Option Char) × ℕ
  | [], _, k => ([], k)
  | c :: rest, i, k =>
    if cfg.preserveOriginal = true ∧ c ∉ cfg.chars then
      let t := updateTextMainGo cfg rand n cL rest (i + 1) k
      (some c :: t.1, t.2)
    else if revealedPL n cL cfg.rightToLeft i then
      let t := updateTextMainGo cfg rand n cL rest (i + 1) k
      (some c :: t.1, t.2)
    else
      let g := getRandomCharMain cfg rand k i c
      let t := updateTextMainGo cfg rand n cL rest (i + 1) g.2
      (g.1 :: t.1, t.2)

/-- The main variant's `updateText(progress)` with
`currentLength = Math.ceil(textLength * progress)`, joined with
`Array.prototype.join('')`. -/
def updateTextMain (cfg : MainCfg) (rand : ℕ → ℚ) (progress : ℚ) (k : ℕ) :
    List Char × ℕ :=
  let t := updateTextMainGo cfg rand cfg.text.length
    (Int.ceil ((cfg.text.length : ℚ) * progress)) cfg.text 0 k
  (joinArr t.1, t.2)

/-- The main variant's `handleIteration(timestamp)`
(`src/src/scrambleText.ts` lines 106-121): `loop` restarts the clock,
`reverse` and `alternate` flip `direction` and restart the clock, `once`
writes the final text and schedules nothing.  `state.iterationCount` is
never touched. -/
def handleIteration (cfg : MainCfg) (t : ℚ) (r : MainRun) : MainRun :=
  match cfg.iteration with
  | .loopMode => scheduleFrame { r with st := { r.st with startTime := some t } }
  | .reverse => scheduleFrame
      { r with st := { r.st with direction := r.st.direction * (-1),
                                 startTime := some t } }
  | .alternate => scheduleFrame
      { r with st := { r.st with direction := r.st.direction * (-1),
                                 startTime := some t } }
  | .once => writeTarget cfg.text r

/-- Active-phase tail of the main variant's `animate`
(`src/src/scrambleText.ts` lines 145-156). -/
def animateMainActive (cfg : MainCfg) (rand : ℕ → ℚ) (t : ℚ)
    (r : MainRun) : MainRun :=
  let elapsed := t - jsNumber r.st.startTime
  let rawProgress := min (elapsed / cfg.duration) 1
  let progress := if r.st.direction = 1 then rawProgress else 1 - rawProgress
  let easedProgress := cfg.ease progress
  if (r.st.direction = 1 ∧ 1 ≤ rawProgress)
      ∨ (r.st.direction = -1 ∧ rawProgress ≤ 0) then
    handleIteration cfg t r
  else
    let u := updateTextMain cfg rand easedProgress r.rngK
    scheduleFrame (writeTarget u.1 { r with rngK := u.2 })

/-- The main variant's `animate(timestamp)`
(`src/src/scrambleText.ts` lines 123-157). -/
def animateMain (cfg : MainCfg) (rand : ℕ → ℚ) (t : ℚ) (r0 : MainRun) :
    MainRun :=
  if cfg.inView = false then
    writeTarget cfg.text r0
  else
    let r1 :=
      if isFalsyOptQ r0.st.delayStartTime then
        let s := getScrambledText cfg rand r0.rngK
        writeTarget s.1
          { r0 with st := { r0.st with delayStartTime := some t }, rngK := s.2 }
      else r0
    if r1.st.isInDelayPhase = true then
      if t - jsNumber r1.st.delayStartTime < cfg.delay then
        let s := getScrambledText cfg rand r1.rngK
        scheduleFrame (writeTarget s.1 { r1 with rngK := s.2 })
      else
        animateMainActive cfg rand t
          { r1 with st := { r1.st with isInDelayPhase := false,
                                       startTime := some t } }
    else
      animateMainActive cfg rand t r1

/-- One browser frame at timestamp `t`: the queued callback, if any, is
dequeued and run; with no queued callback nothing happens. -/
def frameStepMain (cfg : MainCfg) (rand : ℕ → ℚ) (r : MainRun) (t : ℚ) :
    MainRun :=
  match r.pending with
  | some _ => animateMain cfg rand t { r with pending := none }
  | none => r

/-- A run of frames at the given strictly increasing timestamps. -/
def runMain (cfg : MainCfg) (rand : ℕ → ℚ) (ts : List ℚ) (r : MainRun) :
    MainRun :=
  ts.foldl (frameStepMain cfg rand) r

/-- The initial `AnimationState` (`src/src/scrambleText.ts` lines 55-62). -/
def initAnimationState : AnimationState :=
  { direction := 1, iterationCount := 0, frame := none, startTime := none,
    delayStartTime := none, isInDelayPhase := true }

/-- A fresh run over a target currently showing `target0`. -/
def mkMainRun (target0 : List Char) : MainRun :=
  { st := initAnimationState, target := target0, pending := none,
    nextId := 1, rngK := 0, writes := [] }

/-- The synchronous part of the main variant's `scrambleText`
(`src/src/scrambleText.ts` lines 37-62 and 159-161): build the state and,
when `inView`, schedule the first frame.  Nothing is written to the
target before the first scheduled callback runs. -/
def scrambleTextMainSetup (cfg : MainCfg) (target0 : List Char) : MainRun :=
  if cfg.inView = true then scheduleFrame (mkMainRun target0)
  else mkMainRun target0

/-- The cleanup closure returned by the main variant
(`src/src/scrambleText.ts` lines 163-167):
`if (state.frame) cancelAnimationFrame(state.frame)`; `state.frame` is
only read, never cleared, and nothing is written to the target. -/
def cleanupMain (r : MainRun) : MainRun :=
  match r.st.frame with
  | none => r
  | some id => if id = 0 then r else { r with pending := cancelAF id r.pending }

/-- Configuration of the part variant (`src/unnamed/part_000` lines 3-27),
after defaults are applied.  `onComplete` invocations are counted in the
run state instead of being modelled as a callback. -/
structure PartCfg where
  text : List Char
  chars : List Char
  duration : ℚ
  speed : ℚ
  delay : ℚ
  inView : Bool
  rightToLeft : Bool

/-- A part-variant run: the closure variables of `scrambleText`
(`src/unnamed/part_000` lines 29-38) plus the modelled environment.
`completions` counts `config.onComplete?.()` invocations. -/
structure PartRun where
  frame : Option ℕ
  startTime : Option ℚ
  delayStartTime : Option ℚ
  lastRandomUpdateTime : ℚ
  cache : List (Option Char)
  target : List Char
  pending : Option ℕ
  nextId : ℕ
  rngK : ℕ
  writes : List (List Char)
  completions : ℕ
  deriving DecidableEq, Repr

/-- `element.textContent = w` for the part variant. -/
def writeTargetP (w : List Char) (r : PartRun) : PartRun :=
  { r with target := w, writes := r.writes ++ [w] }

/-- `frame = requestAnimationFrame(animate)` for the part variant. -/
def schedulePart (r : PartRun) : PartRun :=
  { r with frame := some r.nextId, pending := some r.nextId,
           nextId := r.nextId + 1 }

/-- The part variant's cache initialiser (`src/unnamed/part_000` lines
36-38 and 86-88): spaces and newlines keep their character, every other
position draws a random glyph. -/
def initCacheGo (chars : List Char) (rand : ℕ → ℚ) :
    List Char → ℕ → List (Option Char) × ℕ
  | [], k => ([], k)
  | c :: rest, k =>
    if c = ' ' ∨ c = '\n' then
      let t := initCacheGo chars rand rest k
      (some c :: t.1, t.2)
    else
      let t := initCacheGo chars rand rest (k + 1)
      (getRandomChar chars rand k :: t.1, t.2)

/-- The part variant's pre-initialization scramble
(`src/unnamed/part_000` lines 125-128):
`finalText.split('').map(() => chars[...]).join('')` — every position,
whitespace included, is mapped to a random pick. -/
def preInitGo (chars : List Char) (rand : ℕ → ℚ) :
    List Char → ℕ → List (Option Char) × ℕ
  | [], k => ([], k)
  | _ :: rest, k =>
    let t := preInitGo chars rand rest (k + 1)
    (getRandomChar chars rand k :: t.1, t.2)

/-- The part variant's `matchCase(source, target)`
(`src/unnamed/part_000` lines 44-46). -/
def matchCase (source glyph : Char) : Char :=
  if source = source.toUpper then glyph.toUpper else glyph.toLower

/-- The per-character reveal threshold of the part variant
(`src/unnamed/part_000` lines 57-59):
`((rightToLeft ? totalChars - 1 - i : i) / totalChars) * totalDuration`. -/
def revealTimePart (n : ℕ) (dur : ℚ) (rtl : Bool) (i : ℕ) : ℚ :=
  (((if rtl then n - 1 - i else i) : ℕ) : ℚ) / (n : ℚ) * dur

/-- Body of the part variant's `updateText(elapsed)`
(`src/unnamed/part_000` lines 49-73).  A position past its threshold
shows the final character; below it, whitespace is shown verbatim and
anything else shows the cached glyph case-matched to the original.
Reading an `undefined` cache entry there would throw inside `matchCase`
(`undefined.toUpperCase()`), modelled as `none`. -/
def updateTextPartGo (n : ℕ) (dur : ℚ) (rtl : Bool) (elapsed : ℚ)
    (cache : List (Option Char)) : List Char → ℕ → Option (List Char)
  | [], _ => some []
  | c :: rest, i =>
    if revealTimePart n dur rtl i ≤ elapsed then
      (updateTextPartGo n dur rtl elapsed cache rest (i + 1)).bind
        (fun tail => some (c :: tail))
    else if c = ' ' ∨ c = '\n' then
      (updateTextPartGo n dur rtl elapsed cache rest (i + 1)).bind
        (fun tail => some (c :: tail))
    else
      match (cache.get? i).getD none with
      | none => none
      | some g =>
        (updateTextPartGo n dur rtl elapsed cache rest (i + 1)).bind
          (fun tail => some (matchCase c g :: tail))

/-- The part variant's `updateText(elapsed)` over the whole text. -/
def updateTextPart (cfg : PartCfg) (elapsed : ℚ)
    (cache : List (Option Char)) : Option (List Char) :=
  updateTextPartGo cfg.text.length cfg.duration cfg.rightToLeft elapsed
    cache cfg.text 0

/-- The throttled cache refresh of the part variant
(`src/unnamed/part_000` lines 103-112): still-unrevealed, non-whitespace
positions get a fresh random glyph. -/
def refreshCacheGo (chars : List Char) (rand : ℕ → ℚ) (n : ℕ) (dur : ℚ)
    (rtl : Bool) (elapsed : ℚ) :
    List Char → List (Option Char) → ℕ → ℕ → List (Option Char) × ℕ
  | [], cache, _, k => (cache, k)
  | c :: rest, cache, i, k =>
    if elapsed < revealTimePart n dur rtl i ∧ ¬ (c = ' ' ∨ c = '\n') then
      refreshCacheGo chars rand n dur rtl elapsed rest
        (cache.set i (getRandomChar chars rand k)) (i + 1) (k + 1)
    else
      refreshCacheGo chars rand n dur rtl elapsed rest cache (i + 1) k

/-- The part variant's `animate(timestamp)`
(`src/unnamed/part_000` lines 76-122).  Returns `none` when the frame
throws (only possible via an `undefined` cache glyph reaching
`matchCase`). -/
def animatePart (cfg : PartCfg) (rand : ℕ → ℚ) (t : ℚ) (r0 : PartRun) :
    Option PartRun :=
  if cfg.inView = false then
    some (writeTargetP cfg.text r0)
  else
    let r1 :=
      if isFalsyOptQ r0.delayStartTime then
        let c := initCacheGo cfg.chars rand cfg.text r0.rngK
        let r := writeTargetP (joinArr c.1)
          { r0 with delayStartTime := some t, cache := c.1, rngK := c.2 }
        { r with lastRandomUpdateTime := t }
      else r0
    if t - jsNumber r1.delayStartTime < cfg.delay then
      some (schedulePart (writeTargetP (joinArr r1.cache) r1))
    else
      let r2 := if r1.startTime = none then { r1 with startTime := some t }
                else r1
      let elapsed := t - jsNumber r2.startTime
      let r3 :=
        if cfg.speed ≤ t - r2.lastRandomUpdateTime then
          let c := refreshCacheGo cfg.chars rand cfg.text.length cfg.duration
            cfg.rightToLeft elapsed cfg.text r2.cache 0 r2.rngK
          { r2 with cache := c.1, rngK := c.2, lastRandomUpdateTime := t }
        else r2
      match updateTextPart cfg elapsed r3.cache with
      | none => none
      | some disp =>
        let r4 := writeTargetP disp r3
        if elapsed < cfg.duration then
          some (schedulePart r4)
        else
          some { writeTargetP cfg.text r4 with
                 completions := r4.completions + 1 }

/-- One browser frame for the part variant. -/
def frameStepPart (cfg : PartCfg) (rand : ℕ → ℚ) (r : Option PartRun)
    (t : ℚ) : Option PartRun :=
  r.bind (fun s =>
    match s.pending with
    | some _ => animatePart cfg rand t { s with pending := none }
    | none => some s)

/-- A part-variant run of frames at the given timestamps. -/
def runPart (cfg : PartCfg) (rand : ℕ → ℚ) (ts : List ℚ) (r : PartRun) :
    Option PartRun :=
  ts.foldl (frameStepPart cfg rand) (some r)

/-- A fresh part-variant run over a target currently showing `target0`,
before `scrambleText` executes. -/
def mkPartRun (target0 : List Char) : PartRun :=
  { frame := none, startTime := none, delayStartTime := none,
    lastRandomUpdateTime := 0, cache := [], target := target0,
    pending := none, nextId := 1, rngK := 0, writes := [], completions := 0 }

/-- The synchronous part of the part variant's `scrambleText`
(`src/unnamed/part_000` lines 16-42 and 124-132): initialise the random
cache, write the pre-initialization scramble to the target, and, when
`inView`, schedule the first frame.  No validation of `chars` happens
anywhere. -/
def scrambleTextPartSetup (cfg : PartCfg) (rand : ℕ → ℚ)
    (target0 : List Char) : PartRun :=
  let c := initCacheGo cfg.chars rand cfg.text 0
  let p := preInitGo cfg.chars rand cfg.text c.2
  let r := writeTargetP (joinArr p.1)
    { mkPartRun target0 with cache := c.1, rngK := p.2 }
  if cfg.inView = true then schedulePart r else r

/-- The cleanup closure returned by the part variant
(`src/unnamed/part_000` lines 135-139): identical in shape to the main
variant's. -/
def cleanupPart (r : PartRun) : PartRun :=
  match r.frame with
  | none => r
  | some id => if id = 0 then r else { r with pending := cancelAF id r.pending }

/-- A deterministic `Math.random()` stream that always returns `0`. -/
def randZero : ℕ → ℚ := fun _ => 0

/-- A deterministic `Math.random()` stream whose draw `k` selects index
`k` out of a 26-letter alphabet. -/
def randSeq : ℕ → ℚ := fun k => (k : ℚ) / 26

/-- The default alphabet `'ABCDEFGHIJKLMNOPQRSTUVWXYZ'` shared by all
variants. -/
def defaultChars : List Char := "ABCDEFGHIJKLMNOPQRSTUVWXYZ".data

/-- Main-variant configuration exercising `iteration: 'alternate'`
(duration 100, no delay, identity easing, default alphabet). -/
def cfgAlternate : MainCfg :=
  { text := "HI".data, chars := defaultChars, duration := 100, speed := 50,
    delay := 0, inView := true, rightToLeft := false, ease := fun t => t,
    preserveOriginal := true, iteration := .alternate, customRandom := none }

/-- Main-variant configuration with every default
(`src/src/scrambleText.ts` lines 41-53) except the text. -/
def cfgMainDefault (text : List Char) : MainCfg :=
  { text := text, chars := defaultChars, duration := 2000, speed := 50,
    delay := 0, inView := true, rightToLeft := false,
    ease := fun t => 1 - (1 - t) ^ 3, preserveOriginal := true,
    iteration := .once, customRandom := none }

/-- Part-variant configuration with the source defaults
(`src/unnamed/part_000` lines 21-27) except the text. -/
def cfgPartDefault (text : List Char) : PartCfg :=
  { text := text, chars := defaultChars, duration := 2000, speed := 50,
    delay := 0, inView := true, rightToLeft := false }

/-- Part-variant configuration with an empty scramble alphabet. -/
def cfgPartEmptyChars : PartCfg :=
  { text := "HI".data, chars := [], duration := 2000, speed := 50,
    delay := 0, inView := true, rightToLeft := false }

/-- Main-variant configuration with an empty scramble alphabet and no
`customRandom`. -/
def cfgMainEmptyChars : MainCfg :=
  { text := "HI".data, chars := [], duration := 2000, speed := 50,
    delay := 0, inView := true, rightToLeft := false,
    ease := fun t => t, preserveOriginal := true, iteration := .once,
    customRandom := none }

/-- What the part variant's `updateText` displays, position by position:
past-threshold positions show the final character; below the threshold,
whitespace is shown verbatim and other positions show the cached glyph
case-matched to the original character. -/
def ThresholdDisplaySpec (cfg : PartCfg) (elapsed : ℚ)
    (cache : List (Option Char)) (disp : List Char) : Prop :=
  disp.length = cfg.text.length
  ∧ ∀ j c, j < cfg.text.length → cfg.text.get? j = some c →
      (revealTimePart cfg.text.length cfg.duration cfg.rightToLeft j ≤ elapsed →
        disp.get? j = some c)
      ∧ (elapsed < revealTimePart cfg.text.length cfg.duration cfg.rightToLeft j →
        ∀ g, (cache.get? j).getD none = some g →
          disp.get? j = some (if c = ' ' ∨ c = '\n' then c else matchCase c g))

/-- A mid-run part-variant state used to witness the throttle theorem:
delay resolved at t=10, last refresh at t=10, one cached glyph. -/
def throttleRunBefore : PartRun :=
  { frame := some 1, startTime := some 10, delayStartTime := some 10,
    lastRandomUpdateTime := 10, cache := [some 'Q'], target := ['Q'],
    pending := none, nextId := 2, rngK := 5, writes := [['Q']],
    completions := 0 }

/-- The state produced by running one frame at t=30 on
`throttleRunBefore`. -/
def throttleRunAfter : PartRun :=
  { frame := some 2, startTime := some 10, delayStartTime := some 10,
    lastRandomUpdateTime := 10, cache := [some 'Q'], target := ['B'],
    pending := some 2, nextId := 3, rngK := 5, writes := [['Q'], ['B']],
    completions := 0 }

/-- A displayed frame shows every character of the text that is outside
the configured alphabet verbatim, at its own position. -/
def PreservesNonAlphabet (cfg : MainCfg) (w : List Char) : Prop :=
  ∀ i c, cfg.text.get? i = some c → c ∉ cfg.chars → w.get? i = some c

example :
    (updateTextV2 "HELLO".data "AB".data true (fun _ => 0) 0 (2/5)).1
      = "AAALO".data := by with_unfolding_all rfl

example :
    (updateTextV2 "HELLO".data "AB".data false (fun _ => 0) 0 (2/5)).1
      = "HEAAA".data := by with_unfolding_all rfl

/-- With a non-empty alphabet and a `Math.random()` result in `[0,1)`, the
random pick lands inside the alphabet. -/
lemma getRandomChar_eq_some (chars : List Char) (rand : ℕ → ℚ) (k : ℕ)
    (hchars : chars ≠ []) (h0 : 0 ≤ rand k) (h1 : rand k < 1) :
    ∃ g, g ∈ chars ∧ getRandomChar chars rand k = some g := by
  have hlen : 0 < chars.length := List.length_pos.mpr hchars
  have hlenQ : (0 : ℚ) < (chars.length : ℚ) := by exact_mod_cast hlen
  have hx0 : 0 ≤ rand k * (chars.length : ℚ) := mul_nonneg h0 (le_of_lt hlenQ)
  have hxlt : rand k * (chars.length : ℚ) < (chars.length : ℚ) := by
    calc rand k * (chars.length : ℚ) < 1 * (chars.length : ℚ) :=
          mul_lt_mul_of_pos_right h1 hlenQ
      _ = (chars.length : ℚ) := one_mul _
  have hfl0 : 0 ≤ Int.floor (rand k * (chars.length : ℚ)) := Int.floor_nonneg.mpr hx0
  have hfllt : Int.floor (rand k * (chars.length : ℚ)) < (chars.length : ℤ) := by
    apply Int.floor_lt.mpr
    exact_mod_cast hxlt
  have hidx : (Int.floor (rand k * (chars.length : ℚ))).toNat < chars.length := by
    omega
  refine ⟨chars.get ⟨_, hidx⟩, List.get_mem _ _ _, ?_⟩
  unfold getRandomChar
  exact List.get?_eq_get hidx

/-- The V2 `updateText` loop produces one output character per input
character. -/
lemma updateTextV2Go_length (chars : List Char) (rand : ℕ → ℚ) (n : ℕ)
    (cL : ℤ) (rtl : Bool) (hchars : chars ≠ [])
    (hrand : ∀ k, 0 ≤ rand k ∧ rand k < 1) :
    ∀ (text : List Char) (i0 k0 : ℕ),
      (updateTextV2Go chars rand n cL rtl text i0 k0).1.length = text.length := by
  intro text
  induction text with
  | nil => intro i0 k0; simp [updateTextV2Go]
  | cons c rest ih =>
    intro i0 k0
    unfold updateTextV2Go
    by_cases h : revealedPL n cL rtl i0
    · simp only [if_pos h, List.length_cons, ih]
    · obtain ⟨g, _, hg⟩ := getRandomChar_eq_some chars rand k0 hchars
        (hrand k0).1 (hrand k0).2
      simp only [if_neg h, hg, jsStr, List.cons_append, List.nil_append,
        List.length_cons, ih]

/-- Pointwise description of the V2 `updateText` loop: positions inside
the reveal range show the final character, positions outside it show a
glyph drawn from the alphabet. -/
lemma updateTextV2Go_get (chars : List Char) (rand : ℕ → ℚ) (n : ℕ)
    (cL : ℤ) (rtl : Bool) (hchars : chars ≠ [])
    (hrand : ∀ k, 0 ≤ rand k ∧ rand k < 1) :
    ∀ (text : List Char) (i0 k0 j : ℕ), j < text.length →
      (revealedPL n cL rtl (i0 + j) →
        (updateTextV2Go chars rand n cL rtl text i0 k0).1.get? j = text.get? j)
      ∧ (¬ revealedPL n cL rtl (i0 + j) →
        ∃ g, g ∈ chars ∧
          (updateTextV2Go chars rand n cL rtl text i0 k0).1.get? j = some g) := by
  intro text
  induction text with
  | nil => intro i0 k0 j hj; simp at hj
  | cons c rest ih =>
    intro i0 k0 j hj
    unfold updateTextV2Go
    by_cases h : revealedPL n cL rtl i0
    · simp only [if_pos h]
      cases j with
      | zero => exact ⟨fun _ => rfl, fun hn0 => absurd h (by simpa using hn0)⟩
      | succ j =>
        have hj' : j < rest.length := by simpa using hj
        have := ih (i0 + 1) k0 j hj'
        constructor
        · intro hr
          have : (updateTextV2Go chars rand n cL rtl rest (i0 + 1) k0).1.get? j
              = rest.get? j := (ih (i0 + 1) k0 j hj').1 (by
            have : i0 + 1 + j = i0 + (j + 1) := by omega
            rw [this]; exact hr)
          simpa using this
        · intro hr
          obtain ⟨g, hg, hget⟩ := (ih (i0 + 1) k0 j hj').2 (by
            have : i0 + 1 + j = i0 + (j + 1) := by omega
            rw [this]; exact hr)
          exact ⟨g, hg, by simpa using hget⟩
    · obtain ⟨g0, hg0, hg0eq⟩ := getRandomChar_eq_some chars rand k0 hchars
        (hrand k0).1 (hrand k0).2
      simp only [if_neg h, hg0eq, jsStr, List.cons_append, List.nil_append]
      cases j with
      | zero =>
        exact ⟨fun hr => absurd hr (by simpa using h), fun _ => ⟨g0, hg0, rfl⟩⟩
      | succ j =>
        have hj' : j < rest.length := by simpa using hj
        constructor
        · intro hr
          have : (updateTextV2Go chars rand n cL rtl rest (i0 + 1) (k0 + 1)).1.get? j
              = rest.get? j := (ih (i0 + 1) (k0 + 1) j hj').1 (by
            have : i0 + 1 + j = i0 + (j + 1) := by omega
            rw [this]; exact hr)
          simpa using this
        · intro hr
          obtain ⟨g, hg, hget⟩ := (ih (i0 + 1) (k0 + 1) j hj').2 (by
            have : i0 + 1 + j = i0 + (j + 1) := by omega
            rw [this]; exact hr)
          exact ⟨g, hg, by simpa using hget⟩

lemma length_filter_range_ge (n a : ℕ) :
    ((List.range n).filter (fun i => decide (a ≤ i))).length = n - a := by
  induction n with
  | zero => simp
  | succ n ih =>
    rw [List.range_succ, List.filter_append, List.length_append, ih]
    by_cases h : a ≤ n
    · simp only [List.filter_cons, List.filter_nil, decide_eq_true_eq, if_pos h,
        List.length_cons, List.length_nil]
      omega
    · simp only [List.filter_cons, List.filter_nil, decide_eq_true_eq, if_neg h,
        List.length_nil]
      omega

lemma length_filter_range_lt (n c : ℕ) :
    ((List.range n).filter (fun i => decide (i < c))).length = min c n := by
  induction n with
  | zero => simp
  | succ n ih =>
    rw [List.range_succ, List.filter_append, List.length_append, ih]
    by_cases h : n < c
    · simp only [List.filter_cons, List.filter_nil, decide_eq_true_eq, if_pos h,
        List.length_cons, List.length_nil]
      omega
    · simp only [List.filter_cons, List.filter_nil, decide_eq_true_eq, if_neg h,
        List.length_nil]
      omega

/-- The reveal range in natural-number form, under the bounds the reveal
count satisfies in the active phase. -/
lemma revealedPL_iff_nat (n : ℕ) (cL : ℤ) (rtl : Bool) (i : ℕ)
    (h0 : 0 ≤ cL) (hn : cL ≤ (n : ℤ)) :
    revealedPL n cL rtl i ↔
      (if rtl then n - cL.toNat ≤ i else i < cL.toNat) := by
  unfold revealedPL
  cases rtl <;> simp only [if_true, if_false, Bool.false_eq_true] <;> omega

/-- The number of positions inside the reveal range is exactly
`currentLength`. -/
lemma revealedPL_count (n : ℕ) (cL : ℤ) (rtl : Bool)
    (h0 : 0 ≤ cL) (hn : cL ≤ (n : ℤ)) :
    ((List.range n).filter (fun i => decide (revealedPL n cL rtl i))).length
      = cL.toNat := by
  have hfun : ∀ i, decide (revealedPL n cL rtl i)
      = (if rtl then decide (n - cL.toNat ≤ i) else decide (i < cL.toNat)) := by
    intro i
    rcases rtl with _ | _ <;>
      simp [decide_eq_decide, revealedPL_iff_nat n cL _ i h0 hn]
  have htoNat : cL.toNat ≤ n := by omega
  cases rtl with
  | false =>
    have : ((List.range n).filter (fun i => decide (revealedPL n cL false i)))
        = ((List.range n).filter (fun i => decide (i < cL.toNat))) := by
      apply List.filter_congr
      intro i _
      simpa using hfun i
    rw [this, length_filter_range_lt]
    omega
  | true =>
    have : ((List.range n).filter (fun i => decide (revealedPL n cL true i)))
        = ((List.range n).filter (fun i => decide (n - cL.toNat ≤ i))) := by
      apply List.filter_congr
      intro i _
      simpa using hfun i
    rw [this, length_filter_range_ge]
    omega

/-- C1: under the progress-length reveal policy
(`src/src/scrambleText.ts`, `updateText` of the second variant, lines
262-288, also the reveal arithmetic of the first variant's `updateText`),
for an active-phase tick at eased progress `p ∈ [0,1]` the built display
string has the length of the text, the number of positions in the reveal
range is `ceil(text.length * p)`, the reveal range is the prefix
`i < currentLength` for left-to-right and the suffix
`i ≥ length - currentLength` when `rightToLeft`, revealed positions show
the final character, and every other position shows a glyph drawn from
the scramble alphabet.  The concrete scenario of the claim (5 characters,
`p = 0.4`, `rightToLeft`, last 2 revealed, first 3 scrambled) is the
witness instance. -/
theorem c1_progress_length_reveal (text chars : List Char) (rtl : Bool)
    (rand : ℕ → ℚ) (k0 : ℕ) (p : ℚ) (hchars : chars ≠ [])
    (hrand : ∀ k, 0 ≤ rand k ∧ rand k < 1) (hp0 : 0 ≤ p) (hp1 : p ≤ 1) :
    (updateTextV2 text chars rtl rand k0 p).1.length = text.length
    ∧ ((List.range text.length).filter (fun i =>
        decide (revealedPL text.length
          (Int.ceil ((text.length : ℚ) * p)) rtl i))).length
      = (Int.ceil ((text.length : ℚ) * p)).toNat
    ∧ (∀ i, revealedPL text.length (Int.ceil ((text.length : ℚ) * p)) rtl i ↔
        (if rtl then
          text.length - (Int.ceil ((text.length : ℚ) * p)).toNat ≤ i
        else i < (Int.ceil ((text.length : ℚ) * p)).toNat))
    ∧ (∀ j, j < text.length →
        revealedPL text.length (Int.ceil ((text.length : ℚ) * p)) rtl j →
        (updateTextV2 text chars rtl rand k0 p).1.get? j = text.get? j)
    ∧ (∀ j, j < text.length →
        ¬ revealedPL text.length (Int.ceil ((text.length : ℚ) * p)) rtl j →
        ∃ g, g ∈ chars ∧
          (updateTextV2 text chars rtl rand k0 p).1.get? j = some g) := by
  have h0 : (0 : ℤ) ≤ Int.ceil ((text.length : ℚ) * p) :=
    Int.ceil_nonneg (mul_nonneg (Nat.cast_nonneg _) hp0)
  have hn : Int.ceil ((text.length : ℚ) * p) ≤ (text.length : ℤ) := by
    apply Int.ceil_le.mpr
    push_cast
    exact mul_le_of_le_one_right (Nat.cast_nonneg _) hp1
  refine ⟨?_, ?_, ?_, ?_, ?_⟩
  · exact updateTextV2Go_length chars rand _ _ rtl hchars hrand text 0 k0
  · exact revealedPL_count _ _ rtl h0 hn
  · intro i; exact revealedPL_iff_nat _ _ rtl i h0 hn
  · intro j hj hr
    exact (updateTextV2Go_get chars rand _ _ rtl hchars hrand text 0 k0 j hj).1
      (by simpa using hr)
  · intro j hj hr
    exact (updateTextV2Go_get chars rand _ _ rtl hchars hrand text 0 k0 j hj).2
      (by simpa using hr)

/-- C1 witness: the claim's scenario — text `"HELLO"`, `rightToLeft`,
eased progress `0.4`, so `currentLength = 2`: the suffix `"LO"` is
revealed and the first three positions scramble. -/
theorem c1_progress_length_reveal_witness :
    ("AB".data ≠ [] ∧ (∀ k : ℕ, (0:ℚ) ≤ (fun _ : ℕ => (0:ℚ)) k
        ∧ (fun _ : ℕ => (0:ℚ)) k < 1) ∧ (0:ℚ) ≤ 2/5 ∧ (2/5 : ℚ) ≤ 1)
    ∧ ((updateTextV2 "HELLO".data "AB".data true (fun _ => 0) 0 (2/5)).1.length
        = "HELLO".data.length
      ∧ ((List.range "HELLO".data.length).filter (fun i =>
          decide (revealedPL "HELLO".data.length
            (Int.ceil (("HELLO".data.length : ℚ) * (2/5))) true i))).length
        = (Int.ceil (("HELLO".data.length : ℚ) * (2/5))).toNat
      ∧ (∀ i, revealedPL "HELLO".data.length
            (Int.ceil (("HELLO".data.length : ℚ) * (2/5))) true i ↔
          (if true then
            "HELLO".data.length
              - (Int.ceil (("HELLO".data.length : ℚ) * (2/5))).toNat ≤ i
          else i < (Int.ceil (("HELLO".data.length : ℚ) * (2/5))).toNat))
      ∧ (∀ j, j < "HELLO".data.length →
          revealedPL "HELLO".data.length
            (Int.ceil (("HELLO".data.length : ℚ) * (2/5))) true j →
          (updateTextV2 "HELLO".data "AB".data true (fun _ => 0) 0 (2/5)).1.get? j
            = "HELLO".data.get? j)
      ∧ (∀ j, j < "HELLO".data.length →
          ¬ revealedPL "HELLO".data.length
            (Int.ceil (("HELLO".data.length : ℚ) * (2/5))) true j →
          ∃ g, g ∈ "AB".data ∧
            (updateTextV2 "HELLO".data "AB".data true (fun _ => 0) 0 (2/5)).1.get? j
              = some g)) :=
  ⟨⟨by decide, fun _ => ⟨le_refl 0, by norm_num⟩, by norm_num, by norm_num⟩,
    c1_progress_length_reveal "HELLO".data "AB".data true (fun _ => 0) 0 (2/5)
      (by decide) (fun _ => ⟨le_refl 0, by norm_num⟩) (by norm_num) (by norm_num)⟩

/-- C3: the cancellation closure is idempotent and harmless: it never
throws (it is a total function), a second application changes nothing, it
never writes to the target or the write log, it leaves the closure state
untouched, and when a frame id is recorded (and truthy) that id is no
longer pending afterwards.  Stated for both returned cleanup closures
(`src/src/scrambleText.ts` lines 163-167 and `src/unnamed/part_000`
lines 135-139). -/
theorem c3_cleanup_idempotent (r : MainRun) (q : PartRun) :
    cleanupMain (cleanupMain r) = cleanupMain r
    ∧ (cleanupMain r).writes = r.writes
    ∧ (cleanupMain r).target = r.target
    ∧ (cleanupMain r).st = r.st
    ∧ (∀ id, r.st.frame = some id → id ≠ 0 →
        (cleanupMain r).pending ≠ some id)
    ∧ cleanupPart (cleanupPart q) = cleanupPart q
    ∧ (cleanupPart q).writes = q.writes
    ∧ (cleanupPart q).target = q.target
    ∧ (∀ id, q.frame = some id → id ≠ 0 →
        (cleanupPart q).pending ≠ some id) := by
  have hAF : ∀ (id : ℕ) (p : Option ℕ), cancelAF id (cancelAF id p) = cancelAF id p := by
    intro id p
    unfold cancelAF
    by_cases h : p = some id
    · simp [h]
    · simp [h]
  have hAFne : ∀ (id : ℕ) (p : Option ℕ), cancelAF id p ≠ some id := by
    intro id p
    unfold cancelAF
    by_cases h : p = some id
    · simp [h]
    · simp [h]
  refine ⟨?_, ?_, ?_, ?_, ?_, ?_, ?_, ?_, ?_⟩
  · unfold cleanupMain
    rcases hf : r.st.frame with _ | id
    · simp [hf]
    · by_cases h0 : id = 0
      · simp [hf, h0]
      · simp [hf, h0, hAF]
  · unfold cleanupMain
    rcases hf : r.st.frame with _ | id
    · rfl
    · by_cases h0 : id = 0 <;> simp [h0]
  · unfold cleanupMain
    rcases hf : r.st.frame with _ | id
    · rfl
    · by_cases h0 : id = 0 <;> simp [h0]
  · unfold cleanupMain
    rcases hf : r.st.frame with _ | id
    · rfl
    · by_cases h0 : id = 0 <;> simp [h0]
  · intro id hf h0
    unfold cleanupMain
    rw [hf]
    simp [h0, hAFne]
  · unfold cleanupPart
    rcases hf : q.frame with _ | id
    · simp [hf]
    · by_cases h0 : id = 0
      · simp [hf, h0]
      · simp [hf, h0, hAF]
  · unfold cleanupPart
    rcases hf : q.frame with _ | id
    · rfl
    · by_cases h0 : id = 0 <;> simp [h0]
  · unfold cleanupPart
    rcases hf : q.frame with _ | id
    · rfl
    · by_cases h0 : id = 0 <;> simp [h0]
  · intro id hf h0
    unfold cleanupPart
    rw [hf]
    simp [h0, hAFne]

/-- C3 witness: the cleanup contract applied to a freshly scheduled run
of each variant (frame id 1 recorded and pending). -/
theorem c3_cleanup_idempotent_witness :
    cleanupMain (cleanupMain (scheduleFrame (mkMainRun [])))
        = cleanupMain (scheduleFrame (mkMainRun []))
    ∧ (cleanupMain (scheduleFrame (mkMainRun []))).writes
        = (scheduleFrame (mkMainRun [])).writes
    ∧ (cleanupMain (scheduleFrame (mkMainRun []))).target
        = (scheduleFrame (mkMainRun [])).target
    ∧ (cleanupMain (scheduleFrame (mkMainRun []))).st
        = (scheduleFrame (mkMainRun [])).st
    ∧ (∀ id, (scheduleFrame (mkMainRun [])).st.frame = some id → id ≠ 0 →
        (cleanupMain (scheduleFrame (mkMainRun []))).pending ≠ some id)
    ∧ cleanupPart (cleanupPart (schedulePart (mkPartRun [])))
        = cleanupPart (schedulePart (mkPartRun []))
    ∧ (cleanupPart (schedulePart (mkPartRun []))).writes
        = (schedulePart (mkPartRun [])).writes
    ∧ (cleanupPart (schedulePart (mkPartRun []))).target
        = (schedulePart (mkPartRun [])).target
    ∧ (∀ id, (schedulePart (mkPartRun [])).frame = some id → id ≠ 0 →
        (cleanupPart (schedulePart (mkPartRun []))).pending ≠ some id) :=
  c3_cleanup_idempotent (scheduleFrame (mkMainRun []))
    (schedulePart (mkPartRun []))

/-- C4: evaluation of the `alternate` bug at a failing input.  With
`iteration: 'alternate'`, duration 100 and frames at 1, 101, 201, 301
and 401 the run crosses the forward terminal at t=101 (direction flips
to −1) and, per the claim, should cross the reverse terminal around
t=201 flipping back to +1 with the iteration counter incremented.
Instead the terminal test for direction −1 is `rawProgress <= 0`, which
never holds once `elapsed > 0` (`rawProgress = min(elapsed/duration, 1)`
and `startTime` was just reset), and `state.iterationCount` is never
incremented anywhere in the source: after two full claimed cycles the
direction is still −1, the counter is still 0, and the run keeps
scheduling frames. -/
theorem c4_alternate_never_flips_back :
    (runMain cfgAlternate randZero [1, 101, 201, 301, 401]
      (scrambleTextMainSetup cfgAlternate [])).st.direction = -1
    ∧ (runMain cfgAlternate randZero [1, 101, 201, 301, 401]
      (scrambleTextMainSetup cfgAlternate [])).st.iterationCount = 0
    ∧ (runMain cfgAlternate randZero [1, 101, 201, 301, 401]
      (scrambleTextMainSetup cfgAlternate [])).pending.isSome = true := by
  refine ⟨?_, ?_, ?_⟩ <;> with_unfolding_all rfl

/-- C5: evaluation of the pre-render whitespace bug at a failing input.
The part variant's pre-initialization scramble
(`src/unnamed/part_000` lines 125-128) maps every position — whitespace
included — to a random alphabet pick, so for text `"A B"` the setup-time
frame shows `'A'` (under the all-zero random stream) at position 1 where
the text has a space, contradicting the preservation the same file
applies in its cache initialiser and in `updateText`. -/
theorem c5_preinit_scrambles_space :
    (scrambleTextPartSetup (cfgPartDefault "A B".data) randZero []).writes
      = [['A', 'A', 'A']]
    ∧ "A B".data.get? 1 = some ' '
    ∧ (['A', 'A', 'A'] : List Char).get? 1 = some 'A'
    ∧ ('A' : Char) ≠ ' ' := by
  refine ⟨?_, ?_, ?_, ?_⟩
  · with_unfolding_all rfl
  · rfl
  · rfl
  · decide

/-- C6 counterexample: the main variant performs no synchronous
pre-render.  `scrambleText` (`src/src/scrambleText.ts` lines 159-161)
only schedules the first frame; with the target currently showing the
final text, the target still shows the final text — and the write log is
empty — after `scrambleText` returns and before any scheduled callback
has run, contradicting the claim that the target can never show the
final text before the animation begins. -/
theorem c6_counterexample_no_prerender :
    (scrambleTextMainSetup (cfgMainDefault "HELLO".data)
        "HELLO".data).target = "HELLO".data
    ∧ (scrambleTextMainSetup (cfgMainDefault "HELLO".data)
        "HELLO".data).writes = []
    ∧ (scrambleTextMainSetup (cfgMainDefault "HELLO".data)
        "HELLO".data).pending = some 1 := by
  refine ⟨?_, ?_, ?_⟩ <;> rfl

/-- C8 counterexample: no empty-alphabet validation exists.  With
`chars = ''` and no `customRandom`, the part variant's setup completes
normally: it writes a (degenerate, empty — every pick is `undefined` and
`Array.join` drops it) pre-render to the target and schedules a frame;
the main variant's setup likewise schedules a frame.  Nothing is
surfaced to the caller before scheduling or writing, contradicting the
claimed fail-fast validation. -/
theorem c8_counterexample_no_validation :
    (scrambleTextPartSetup cfgPartEmptyChars randZero "x".data).writes = [[]]
    ∧ (scrambleTextPartSetup cfgPartEmptyChars randZero "x".data).pending
        = some 1
    ∧ (scrambleTextMainSetup cfgMainEmptyChars "x".data).pending = some 1
    ∧ (scrambleTextMainSetup cfgMainEmptyChars "x".data).writes = [] := by
  refine ⟨?_, ?_, ?_, ?_⟩ <;> with_unfolding_all rfl

/-- C9 counterexample: an empty text does not complete at the first
tick.  With `text = ''` and duration 2000, after the first frame (t=5)
the part variant has fired no completion and has scheduled another
frame; every string written so far is empty.  Completion only happens
once `elapsed >= duration` (second evaluation, t=2005). -/
theorem c9_counterexample_not_immediate :
    (runPart (cfgPartDefault []) randZero [5]
        (scrambleTextPartSetup (cfgPartDefault []) randZero [])).map
      (fun r => (r.completions, r.pending.isSome, r.writes))
      = some (0, true, [[], [], []])
    ∧ (runPart (cfgPartDefault []) randZero [5, 2005]
        (scrambleTextPartSetup (cfgPartDefault []) randZero [])).map
      (fun r => (r.completions, r.pending.isSome))
      = some (1, false) := by
  refine ⟨?_, ?_⟩ <;> with_unfolding_all rfl

/-- C7 counterexample: two frames less than `speed` (50 ms) apart can
straddle a cache refresh and show different glyphs at an unrevealed
position.  With duration 2000, speed 50 and frames at t=10, 50, 70: the
refresh clock starts at t=10; at t=50 no refresh has happened
(40 < 50) and position 1 (threshold 400 ms, elapsed 40) shows the cached
`'L'`; at t=70 the throttle fires (60 ≥ 50) and the same still-unrevealed
position (elapsed 60 < 400) shows a fresh `'P'` — two frames only 20 ms
apart showing different glyphs at an unrevealed position. -/
theorem c7_counterexample_straddled_refresh :
    (runPart (cfgPartDefault "HELLO".data) randSeq [10, 50, 70]
        (scrambleTextPartSetup (cfgPartDefault "HELLO".data) randSeq [])).map
      (fun r => r.writes)
      = some [['F', 'G', 'H', 'I', 'J'], ['K', 'L', 'M', 'N', 'O'],
              ['H', 'L', 'M', 'N', 'O'], ['H', 'L', 'M', 'N', 'O'],
              ['H', 'P', 'Q', 'R', 'S']]
    ∧ (70 - 50 : ℚ) < (cfgPartDefault "HELLO".data).speed
    ∧ (50 - 10 : ℚ) < revealTimePart 5 2000 false 1
    ∧ (70 - 10 : ℚ) < revealTimePart 5 2000 false 1
    ∧ (['H', 'L', 'M', 'N', 'O'] : List Char).get? 1
        ≠ (['H', 'P', 'Q', 'R', 'S'] : List Char).get? 1 := by
  refine ⟨?_, ?_, ?_, ?_, ?_⟩
  · with_unfolding_all rfl
  · norm_num [cfgPartDefault]
  · norm_num [revealTimePart]
  · norm_num [revealTimePart]
  · decide

/-- Inductive core of the `updateText` characterization for the part
variant. -/
lemma updateTextPartGo_spec (n : ℕ) (dur : ℚ) (rtl : Bool) (elapsed : ℚ)
    (cache : List (Option Char)) :
    ∀ (text : List Char) (i0 : ℕ),
      (∀ j, j < text.length → ((cache.get? (i0 + j)).getD none).isSome = true) →
      ∃ disp, updateTextPartGo n dur rtl elapsed cache text i0 = some disp
        ∧ disp.length = text.length
        ∧ ∀ j c, j < text.length → text.get? j = some c →
            (revealTimePart n dur rtl (i0 + j) ≤ elapsed →
              disp.get? j = some c)
            ∧ (elapsed < revealTimePart n dur rtl (i0 + j) →
              ∀ g, (cache.get? (i0 + j)).getD none = some g →
                disp.get? j = some (if c = ' ' ∨ c = '\n' then c
                  else matchCase c g)) := by
  intro text
  induction text with
  | nil =>
    intro i0 _
    exact ⟨[], rfl, rfl, fun j c hj => by simp at hj⟩
  | cons c rest ih =>
    intro i0 hcache
    have htail : ∀ j, j < rest.length →
        ((cache.get? (i0 + 1 + j)).getD none).isSome = true := by
      intro j hj
      have := hcache (j + 1) (by simpa using Nat.succ_lt_succ hj)
      simpa [Nat.add_assoc, Nat.add_comm 1 j] using this
    obtain ⟨tail, htl, hlen, hpt⟩ := ih (i0 + 1) htail
    have hhead : ((cache.get? i0).getD none).isSome = true := by
      simpa using hcache 0 (by simp)
    by_cases hrt : revealTimePart n dur rtl i0 ≤ elapsed
    · refine ⟨c :: tail, ?_, by simp [hlen], ?_⟩
      · unfold updateTextPartGo
        rw [if_pos hrt, htl]
        rfl
      · intro j cc hj hc
        cases j with
        | zero =>
          simp only [List.get?] at hc
          cases hc
          constructor
          · intro _; rfl
          · intro hlt
            exact absurd hrt (by simpa using not_le.mpr hlt)
        | succ j =>
          have hj' : j < rest.length := by simpa using hj
          have := hpt j cc hj' (by simpa using hc)
          constructor
          · intro h
            have := this.1 (by
              have : i0 + 1 + j = i0 + (j + 1) := by omega
              rw [this]; exact h)
            simpa using this
          · intro h g hg
            have harg : i0 + 1 + j = i0 + (j + 1) := by omega
            have := this.2 (by rw [harg]; exact h) g (by rw [harg]; exact hg)
            simpa using this
    · by_cases hws : c = ' ' ∨ c = '\n'
      · refine ⟨c :: tail, ?_, by simp [hlen], ?_⟩
        · unfold updateTextPartGo
          rw [if_neg hrt, if_pos hws, htl]
          rfl
        · intro j cc hj hc
          cases j with
          | zero =>
            simp only [List.get?] at hc
            cases hc
            exact ⟨fun _ => rfl, fun _ g _ => by simp [if_pos hws]⟩
          | succ j =>
            have hj' : j < rest.length := by simpa using hj
            have := hpt j cc hj' (by simpa using hc)
            have harg : i0 + 1 + j = i0 + (j + 1) := by omega
            constructor
            · intro h
              have := this.1 (by rw [harg]; exact h)
              simpa using this
            · intro h g hg
              have := this.2 (by rw [harg]; exact h) g (by rw [harg]; exact hg)
              simpa using this
      · obtain ⟨g0, hg0⟩ := Option.isSome_iff_exists.mp hhead
        refine ⟨matchCase c g0 :: tail, ?_, by simp [hlen], ?_⟩
        · unfold updateTextPartGo
          rw [if_neg hrt, if_neg hws, hg0, htl]
          rfl
        · intro j cc hj hc
          cases j with
          | zero =>
            simp only [List.get?] at hc
            cases hc
            constructor
            · intro h; exact absurd h hrt
            · intro _ g hg
              simp only [Nat.add_zero] at hg
              rw [hg0] at hg
              cases hg
              simp [if_neg hws]
          | succ j =>
            have hj' : j < rest.length := by simpa using hj
            have := hpt j cc hj' (by simpa using hc)
            have harg : i0 + 1 + j = i0 + (j + 1) := by omega
            constructor
            · intro h
              have := this.1 (by rw [harg]; exact h)
              simpa using this
            · intro h g hg
              have := this.2 (by rw [harg]; exact h) g (by rw [harg]; exact hg)
              simpa using this

/-- C2 counterexample: display-equals-final is not equivalent to the
threshold condition.  For text `"X "` at `elapsed = 0`, position 1 (a
space, threshold `(1/2)*2000 = 1000`) is below its reveal time yet is
displayed as its final character, because unrevealed whitespace is
preserved verbatim (`src/unnamed/part_000` lines 66-69). -/
theorem c2_counterexample_space_before_threshold :
    updateTextPart (cfgPartDefault "X ".data) 0 [some 'Q', some 'R']
      = some ['X', ' ']
    ∧ (0 : ℚ) < revealTimePart 2 2000 false 1
    ∧ "X ".data.get? 1 = some ' ' := by
  refine ⟨?_, ?_, ?_⟩
  · with_unfolding_all rfl
  · norm_num [revealTimePart]
  · rfl

/-- C2 as amended: under the threshold-by-index policy
(`src/unnamed/part_000` `updateText`, lines 49-73) a character is shown
as its final character whenever
`elapsed ≥ (revealOrderIndex / length) * totalDurationMs` (with the
order index mirrored when `rightToLeft`); below its threshold a
whitespace character is still displayed verbatim, and any other
character shows its cached glyph case-matched to the original — so the
threshold implies display-equals-final but not conversely.  The decision
is a function of raw `elapsed` only: this variant defines no easing at
all. -/
theorem c2_threshold_by_index (cfg : PartCfg) (elapsed : ℚ)
    (cache : List (Option Char))
    (hcache : ∀ j, j < cfg.text.length →
      ((cache.get? j).getD none).isSome = true) :
    ∃ disp, updateTextPart cfg elapsed cache = some disp
      ∧ ThresholdDisplaySpec cfg elapsed cache disp := by
  obtain ⟨disp, heq, hlen, hpt⟩ :=
    updateTextPartGo_spec cfg.text.length cfg.duration cfg.rightToLeft
      elapsed cache cfg.text 0 (by simpa using hcache)
  refine ⟨disp, heq, hlen, ?_⟩
  intro j c hj hc
  have := hpt j c hj hc
  constructor
  · intro h; exact this.1 (by simpa using h)
  · intro h g hg
    exact this.2 (by simpa using h) g (by simpa using hg)

/-- C2 witness: the characterization applied to text `"Ab C"` with a
concrete full cache at `elapsed = 300`. -/
theorem c2_threshold_by_index_witness :
    (∀ j, j < (cfgPartDefault "Ab C".data).text.length →
      ((([some 'q', some 'R', some 'z', some 'k'] :
        List (Option Char)).get? j).getD none).isSome = true)
    ∧ ∃ disp, updateTextPart (cfgPartDefault "Ab C".data) 300
          [some 'q', some 'R', some 'z', some 'k'] = some disp
        ∧ ThresholdDisplaySpec (cfgPartDefault "Ab C".data) 300
          [some 'q', some 'R', some 'z', some 'k'] disp :=
  ⟨by decide,
    c2_threshold_by_index (cfgPartDefault "Ab C".data) 300
      [some 'q', some 'R', some 'z', some 'k'] (by decide)⟩

/-- `Array.join('')` over an all-defined array keeps length and
positions. -/
lemma joinArr_get (l : List (Option Char))
    (h : ∀ o ∈ l, o.isSome = true) :
    (joinArr l).length = l.length
    ∧ ∀ j, (joinArr l).get? j = (l.get? j).getD none := by
  induction l with
  | nil => exact ⟨rfl, fun j => by cases j <;> rfl⟩
  | cons o rest ih =>
    obtain ⟨g, hg⟩ := Option.isSome_iff_exists.mp (h o (by simp))
    subst hg
    obtain ⟨ihlen, ihget⟩ := ih (fun o ho => h o (by simp [ho]))
    constructor
    · simp [joinArr, List.filterMap_cons, ihlen, joinArr] at ihlen ⊢
      exact ihlen
    · intro j
      cases j with
      | zero => simp [joinArr, List.filterMap_cons]
      | succ j =>
        have := ihget j
        simpa [joinArr, List.filterMap_cons] using this

/-- The pre-initialization scramble draws one glyph per position, each
from the alphabet (for a non-empty alphabet and in-range randomness). -/
lemma preInitGo_spec (chars : List Char) (rand : ℕ → ℚ)
    (hchars : chars ≠ []) (hrand : ∀ k, 0 ≤ rand k ∧ rand k < 1) :
    ∀ (text : List Char) (k0 : ℕ),
      (preInitGo chars rand text k0).1.length = text.length
      ∧ ∀ o ∈ (preInitGo chars rand text k0).1,
          ∃ g, g ∈ chars ∧ o = some g := by
  intro text
  induction text with
  | nil => intro k0; exact ⟨rfl, by simp [preInitGo]⟩
  | cons c rest ih =>
    intro k0
    obtain ⟨g0, hg0mem, hg0⟩ := getRandomChar_eq_some chars rand k0 hchars
      (hrand k0).1 (hrand k0).2
    obtain ⟨ihlen, ihmem⟩ := ih (k0 + 1)
    constructor
    · simp [preInitGo, ihlen]
    · intro o ho
      simp only [preInitGo, List.mem_cons] at ho
      rcases ho with ho | ho
      · exact ⟨g0, hg0mem, by rw [ho, hg0]⟩
      · exact ihmem o ho

/-- With an empty alphabet every pre-initialization pick is `undefined`
and `Array.join` collapses the pre-render to the empty string. -/
lemma preInitGo_empty (rand : ℕ → ℚ) :
    ∀ (text : List Char) (k0 : ℕ),
      joinArr (preInitGo [] rand text k0).1 = [] := by
  intro text
  induction text with
  | nil => intro k0; rfl
  | cons c rest ih =>
    intro k0
    have hnone : getRandomChar [] rand k0 = none := rfl
    simp [preInitGo, joinArr, List.filterMap_cons, hnone]
    have := ih (k0 + 1)
    simpa [joinArr] using this

/-- C6 as amended: only the part variant performs the synchronous
pre-render.  `src/unnamed/part_000` (lines 124-132) writes one
fully-scrambled string — same length as the text, every character drawn
from the alphabet — to the target before scheduling the first frame;
the `src/src/scrambleText.ts` variants write nothing synchronously, so
until the first scheduled callback runs their target retains whatever it
showed before (possibly the final text or empty content). -/
theorem c6_prerender_part_variant_only (cfg : PartCfg) (mcfg : MainCfg)
    (rand : ℕ → ℚ) (tgt0 tgt1 : List Char)
    (hchars : cfg.chars ≠ []) (hrand : ∀ k, 0 ≤ rand k ∧ rand k < 1)
    (hview : cfg.inView = true) :
    (scrambleTextPartSetup cfg rand tgt0).writes
      = [(scrambleTextPartSetup cfg rand tgt0).target]
    ∧ (scrambleTextPartSetup cfg rand tgt0).target.length = cfg.text.length
    ∧ (∀ j c, (scrambleTextPartSetup cfg rand tgt0).target.get? j = some c →
        c ∈ cfg.chars)
    ∧ (scrambleTextPartSetup cfg rand tgt0).pending = some 1
    ∧ (scrambleTextMainSetup mcfg tgt1).writes = []
    ∧ (scrambleTextMainSetup mcfg tgt1).target = tgt1 := by
  obtain ⟨hplen, hpmem⟩ := preInitGo_spec cfg.chars rand hchars hrand
    cfg.text (initCacheGo cfg.chars rand cfg.text 0).2
  have hsome : ∀ o ∈ (preInitGo cfg.chars rand cfg.text
      (initCacheGo cfg.chars rand cfg.text 0).2).1, o.isSome = true := by
    intro o ho
    obtain ⟨g, _, rfl⟩ := hpmem o ho
    rfl
  obtain ⟨hjlen, hjget⟩ := joinArr_get _ hsome
  refine ⟨?_, ?_, ?_, ?_, ?_, ?_⟩
  · unfold scrambleTextPartSetup
    rw [if_pos hview]
    rfl
  · unfold scrambleTextPartSetup
    rw [if_pos hview]
    show (joinArr _).length = _
    rw [hjlen, hplen]
  · unfold scrambleTextPartSetup
    rw [if_pos hview]
    intro j c hj
    have hj' : (joinArr (preInitGo cfg.chars rand cfg.text
        (initCacheGo cfg.chars rand cfg.text 0).2).1).get? j = some c := hj
    rw [hjget j] at hj'
    rcases hg : (preInitGo cfg.chars rand cfg.text
        (initCacheGo cfg.chars rand cfg.text 0).2).1.get? j with _ | o
    · rw [hg] at hj'; simp at hj'
    · rw [hg] at hj'
      simp only [Option.getD_some] at hj'
      subst hj'
      obtain ⟨g, hgmem, hgeq⟩ := hpmem _ (List.get?_mem hg)
      injection hgeq with hcg
      subst hcg
      exact hgmem
  · unfold scrambleTextPartSetup
    rw [if_pos hview]
    rfl
  · unfold scrambleTextMainSetup
    by_cases h : mcfg.inView = true
    · rw [if_pos h]; rfl
    · rw [if_neg h]; rfl
  · unfold scrambleTextMainSetup
    by_cases h : mcfg.inView = true
    · rw [if_pos h]; rfl
    · rw [if_neg h]; rfl

/-- C6 witness: the pre-render contrast applied to text `"HI"` with the
all-zero random stream, the part-variant target initially empty and the
main-variant target initially showing the final text. -/
theorem c6_prerender_part_variant_only_witness :
    ((cfgPartDefault "HI".data).chars ≠ []
      ∧ (∀ k : ℕ, 0 ≤ randZero k ∧ randZero k < 1)
      ∧ (cfgPartDefault "HI".data).inView = true)
    ∧ ((scrambleTextPartSetup (cfgPartDefault "HI".data) randZero []).writes
        = [(scrambleTextPartSetup (cfgPartDefault "HI".data) randZero []).target]
      ∧ (scrambleTextPartSetup (cfgPartDefault "HI".data) randZero
          []).target.length = (cfgPartDefault "HI".data).text.length
      ∧ (∀ j c, (scrambleTextPartSetup (cfgPartDefault "HI".data) randZero
          []).target.get? j = some c → c ∈ (cfgPartDefault "HI".data).chars)
      ∧ (scrambleTextPartSetup (cfgPartDefault "HI".data) randZero
          []).pending = some 1
      ∧ (scrambleTextMainSetup (cfgMainDefault "HI".data) "HI".data).writes = []
      ∧ (scrambleTextMainSetup (cfgMainDefault "HI".data) "HI".data).target
        = "HI".data) :=
  ⟨⟨by decide, fun _ => ⟨le_refl 0, by norm_num [randZero]⟩, rfl⟩,
    c6_prerender_part_variant_only (cfgPartDefault "HI".data)
      (cfgMainDefault "HI".data) randZero [] "HI".data (by decide)
      (fun _ => ⟨le_refl 0, by norm_num [randZero]⟩) rfl⟩

/-- C7 as amended: the cache reroll is throttled against the time of the
last refresh, not against the previous frame.  Whenever a post-delay
frame runs with `timestamp - lastRandomUpdateTime < updateSpeed`
(`src/unnamed/part_000` lines 103-112), the scramble cache, the refresh
clock and the random cursor are all left untouched, so the frame shows
the same cached glyph as the previous frame at every still-unrevealed
position; consecutive refreshes are therefore at least `updateSpeed`
apart, but two frames less than `updateSpeed` apart may still straddle
one refresh. -/
theorem c7_cache_throttle (cfg : PartCfg) (rand : ℕ → ℚ) (t : ℚ)
    (r r' : PartRun) (hview : cfg.inView = true)
    (hinit : isFalsyOptQ r.delayStartTime = false)
    (hdelay : ¬ (t - jsNumber r.delayStartTime < cfg.delay))
    (hthrottle : t - r.lastRandomUpdateTime < cfg.speed)
    (hstep : animatePart cfg rand t r = some r') :
    r'.cache = r.cache
    ∧ r'.lastRandomUpdateTime = r.lastRandomUpdateTime
    ∧ r'.rngK = r.rngK := by
  unfold animatePart at hstep
  rw [hview] at hstep
  simp only [Bool.true_eq_false, if_false, hinit, Bool.false_eq_true] at hstep
  rw [if_neg hdelay] at hstep
  have hthrottle' : ¬ (cfg.speed ≤ t -
      (if r.startTime = none then { r with startTime := some t }
       else r).lastRandomUpdateTime) := by
    by_cases hst : r.startTime = none <;> simp [hst, not_le, hthrottle]
  rw [if_neg hthrottle'] at hstep
  rcases hupd : updateTextPart cfg
      (t - jsNumber (if r.startTime = none then { r with startTime := some t }
        else r).startTime)
      (if r.startTime = none then { r with startTime := some t }
        else r).cache with _ | disp
  · rw [hupd] at hstep
    simp at hstep
  · rw [hupd] at hstep
    dsimp only at hstep
    by_cases hdur : t - jsNumber (if r.startTime = none then
        { r with startTime := some t } else r).startTime < cfg.duration
    · rw [if_pos hdur] at hstep
      cases hstep
      by_cases hst : r.startTime = none <;>
        simp [hst, schedulePart, writeTargetP]
    · rw [if_neg hdur] at hstep
      cases hstep
      by_cases hst : r.startTime = none <;>
        simp [hst, schedulePart, writeTargetP]

/-- C7 witness: a frame at t=30, twenty milliseconds after the last
refresh with `speed = 50`, leaves cache, refresh clock and random cursor
unchanged. -/
theorem c7_cache_throttle_witness :
    ((cfgPartDefault "B".data).inView = true
      ∧ isFalsyOptQ throttleRunBefore.delayStartTime = false
      ∧ ¬ ((30 : ℚ) - jsNumber throttleRunBefore.delayStartTime
            < (cfgPartDefault "B".data).delay)
      ∧ (30 : ℚ) - throttleRunBefore.lastRandomUpdateTime
            < (cfgPartDefault "B".data).speed
      ∧ animatePart (cfgPartDefault "B".data) randZero 30 throttleRunBefore
            = some throttleRunAfter)
    ∧ (throttleRunAfter.cache = throttleRunBefore.cache
      ∧ throttleRunAfter.lastRandomUpdateTime
          = throttleRunBefore.lastRandomUpdateTime
      ∧ throttleRunAfter.rngK = throttleRunBefore.rngK) :=
  ⟨⟨rfl, rfl,
    by norm_num [throttleRunBefore, jsNumber, cfgPartDefault],
    by norm_num [throttleRunBefore, cfgPartDefault],
    by with_unfolding_all rfl⟩,
    c7_cache_throttle (cfgPartDefault "B".data) randZero 30
      throttleRunBefore throttleRunAfter rfl rfl
      (by norm_num [throttleRunBefore, jsNumber, cfgPartDefault])
      (by norm_num [throttleRunBefore, cfgPartDefault])
      (by with_unfolding_all rfl)⟩

/-- C8 as amended: the configuration is never validated.  With an empty
alphabet and no `customRandom`, `scrambleText` still completes setup
normally: the part variant writes its (now degenerate — every pick is
`undefined`, collapsed by `Array.join` to the empty string) pre-render
and schedules the first frame, and the main variant schedules the first
frame; no failure is surfaced to the caller at setup. -/
theorem c8_no_empty_alphabet_validation (cfg : PartCfg) (mcfg : MainCfg)
    (rand : ℕ → ℚ) (tgt0 tgt1 : List Char)
    (hchars : cfg.chars = []) (hview : cfg.inView = true)
    (hmview : mcfg.inView = true) :
    (scrambleTextPartSetup cfg rand tgt0).writes = [[]]
    ∧ (scrambleTextPartSetup cfg rand tgt0).pending = some 1
    ∧ (scrambleTextMainSetup mcfg tgt1).pending = some 1
    ∧ (scrambleTextMainSetup mcfg tgt1).writes = [] := by
  have hpre : joinArr (preInitGo cfg.chars rand cfg.text
      (initCacheGo cfg.chars rand cfg.text 0).2).1 = [] := by
    rw [hchars]
    exact preInitGo_empty rand cfg.text _
  refine ⟨?_, ?_, ?_, ?_⟩
  · unfold scrambleTextPartSetup
    rw [if_pos hview]
    show ([] : List (List Char)) ++ [joinArr _] = [[]]
    rw [hpre]
    rfl
  · unfold scrambleTextPartSetup
    rw [if_pos hview]
    rfl
  · unfold scrambleTextMainSetup
    rw [if_pos hmview]
    rfl
  · unfold scrambleTextMainSetup
    rw [if_pos hmview]
    rfl

/-- C8 witness: setup with the empty-alphabet configurations writes the
degenerate pre-render (part variant) and schedules a frame in both
variants. -/
theorem c8_no_empty_alphabet_validation_witness :
    (cfgPartEmptyChars.chars = [] ∧ cfgPartEmptyChars.inView = true
      ∧ cfgMainEmptyChars.inView = true)
    ∧ ((scrambleTextPartSetup cfgPartEmptyChars randZero "old".data).writes
        = [[]]
      ∧ (scrambleTextPartSetup cfgPartEmptyChars randZero "old".data).pending
        = some 1
      ∧ (scrambleTextMainSetup cfgMainEmptyChars "old".data).pending = some 1
      ∧ (scrambleTextMainSetup cfgMainEmptyChars "old".data).writes = []) :=
  ⟨⟨rfl, rfl, rfl⟩,
    c8_no_empty_alphabet_validation cfgPartEmptyChars cfgMainEmptyChars
      randZero "old".data "old".data rfl rfl rfl⟩

/-- The `getScrambledText` body: one entry per character, every entry
defined, and non-alphabet characters preserved in place (defaults:
`preserveOriginal`, no `customRandom`, non-empty alphabet, in-range
randomness). -/
lemma getScrambledGo_spec (cfg : MainCfg) (rand : ℕ → ℚ)
    (hpres : cfg.preserveOriginal = true) (hcr : cfg.customRandom = none)
    (hchars : cfg.chars ≠ []) (hrand : ∀ k, 0 ≤ rand k ∧ rand k < 1) :
    ∀ (sub : List Char) (i0 k0 : ℕ),
      (getScrambledGo cfg rand sub i0 k0).1.length = sub.length
      ∧ (∀ o ∈ (getScrambledGo cfg rand sub i0 k0).1, o.isSome = true)
      ∧ ∀ j c, sub.get? j = some c → c ∉ cfg.chars →
          (getScrambledGo cfg rand sub i0 k0).1.get? j = some (some c) := by
  intro sub
  induction sub with
  | nil =>
    intro i0 k0
    refine ⟨rfl, by simp [getScrambledGo], ?_⟩
    intro j c hj
    simp [List.get?] at hj
  | cons c rest ih =>
    intro i0 k0
    by_cases hc : c ∈ cfg.chars
    · have hcond : ¬ (cfg.preserveOriginal = true ∧ c ∉ cfg.chars) := by
        intro h; exact h.2 hc
      obtain ⟨g, hgmem, hgeq⟩ := getRandomChar_eq_some cfg.chars rand k0
        hchars (hrand k0).1 (hrand k0).2
      have hmain : getRandomCharMain cfg rand k0 i0 c
          = (getRandomChar cfg.chars rand k0, k0 + 1) := by
        simp [getRandomCharMain, hcr]
      obtain ⟨ihlen, ihsome, ihpres⟩ := ih (i0 + 1) (k0 + 1)
      refine ⟨?_, ?_, ?_⟩
      · simp only [getScrambledGo, if_neg hcond, hmain, List.length_cons, ihlen]
      · intro o ho
        simp only [getScrambledGo, if_neg hcond, hmain, List.mem_cons] at ho
        rcases ho with ho | ho
        · rw [ho, hgeq]; rfl
        · exact ihsome o ho
      · intro j c' hj hcnot
        cases j with
        | zero =>
          simp only [List.get?] at hj
          cases hj
          exact absurd hc hcnot
        | succ j =>
          simp only [getScrambledGo, if_neg hcond, hmain, List.get?]
          exact ihpres j c' (by simpa using hj) hcnot
    · have hcond : cfg.preserveOriginal = true ∧ c ∉ cfg.chars := ⟨hpres, hc⟩
      obtain ⟨ihlen, ihsome, ihpres⟩ := ih (i0 + 1) k0
      refine ⟨?_, ?_, ?_⟩
      · simp only [getScrambledGo, if_pos hcond, List.length_cons, ihlen]
      · intro o ho
        simp only [getScrambledGo, if_pos hcond, List.mem_cons] at ho
        rcases ho with ho | ho
        · rw [ho]; rfl
        · exact ihsome o ho
      · intro j c' hj hcnot
        cases j with
        | zero =>
          simp only [List.get?] at hj
          cases hj
          simp only [getScrambledGo, if_pos hcond, List.get?]
        | succ j =>
          simp only [getScrambledGo, if_pos hcond, List.get?]
          exact ihpres j c' (by simpa using hj) hcnot

/-- The main `updateText` body: same three properties as
`getScrambledGo_spec`. -/
lemma updateTextMainGo_spec (cfg : MainCfg) (rand : ℕ → ℚ) (n : ℕ) (cL : ℤ)
    (hpres : cfg.preserveOriginal = true) (hcr : cfg.customRandom = none)
    (hchars : cfg.chars ≠ []) (hrand : ∀ k, 0 ≤ rand k ∧ rand k < 1) :
    ∀ (sub : List Char) (i0 k0 : ℕ),
      (updateTextMainGo cfg rand n cL sub i0 k0).1.length = sub.length
      ∧ (∀ o ∈ (updateTextMainGo cfg rand n cL sub i0 k0).1, o.isSome = true)
      ∧ ∀ j c, sub.get? j = some c → c ∉ cfg.chars →
          (updateTextMainGo cfg rand n cL sub i0 k0).1.get? j
            = some (some c) := by
  intro sub
  induction sub with
  | nil =>
    intro i0 k0
    refine ⟨rfl, by simp [updateTextMainGo], ?_⟩
    intro j c hj
    simp [List.get?] at hj
  | cons c rest ih =>
    intro i0 k0
    by_cases hc : c ∈ cfg.chars
    · have hcond : ¬ (cfg.preserveOriginal = true ∧ c ∉ cfg.chars) := by
        intro h; exact h.2 hc
      by_cases hrev : revealedPL n cL cfg.rightToLeft i0
      · obtain ⟨ihlen, ihsome, ihpres⟩ := ih (i0 + 1) k0
        refine ⟨?_, ?_, ?_⟩
        · simp only [updateTextMainGo, if_neg hcond, if_pos hrev,
            List.length_cons, ihlen]
        · intro o ho
          simp only [updateTextMainGo, if_neg hcond, if_pos hrev,
            List.mem_cons] at ho
          rcases ho with ho | ho
          · rw [ho]; rfl
          · exact ihsome o ho
        · intro j c' hj hcnot
          cases j with
          | zero =>
            simp only [List.get?] at hj
            cases hj
            exact absurd hc hcnot
          | succ j =>
            simp only [updateTextMainGo, if_neg hcond, if_pos hrev, List.get?]
            exact ihpres j c' (by simpa using hj) hcnot
      · obtain ⟨g, hgmem, hgeq⟩ := getRandomChar_eq_some cfg.chars rand k0
          hchars (hrand k0).1 (hrand k0).2
        have hmain : getRandomCharMain cfg rand k0 i0 c
            = (getRandomChar cfg.chars rand k0, k0 + 1) := by
          simp [getRandomCharMain, hcr]
        obtain ⟨ihlen, ihsome, ihpres⟩ := ih (i0 + 1) (k0 + 1)
        refine ⟨?_, ?_, ?_⟩
        · simp only [updateTextMainGo, if_neg hcond, if_neg hrev, hmain,
            List.length_cons, ihlen]
        · intro o ho
          simp only [updateTextMainGo, if_neg hcond, if_neg hrev, hmain,
            List.mem_cons] at ho
          rcases ho with ho | ho
          · rw [ho, hgeq]; rfl
          · exact ihsome o ho
        · intro j c' hj hcnot
          cases j with
          | zero =>
            simp only [List.get?] at hj
            cases hj
            exact absurd hc hcnot
          | succ j =>
            simp only [updateTextMainGo, if_neg hcond, if_neg hrev, hmain,
              List.get?]
            exact ihpres j c' (by simpa using hj) hcnot
    · have hcond : cfg.preserveOriginal = true ∧ c ∉ cfg.chars := ⟨hpres, hc⟩
      obtain ⟨ihlen, ihsome, ihpres⟩ := ih (i0 + 1) k0
      refine ⟨?_, ?_, ?_⟩
      · simp only [updateTextMainGo, if_pos hcond, List.length_cons, ihlen]
      · intro o ho
        simp only [updateTextMainGo, if_pos hcond, List.mem_cons] at ho
        rcases ho with ho | ho
        · rw [ho]; rfl
        · exact ihsome o ho
      · intro j c' hj hcnot
        cases j with
        | zero =>
          simp only [List.get?] at hj
          cases hj
          simp only [updateTextMainGo, if_pos hcond, List.get?]
        | succ j =>
          simp only [updateTextMainGo, if_pos hcond, List.get?]
          exact ihpres j c' (by simpa using hj) hcnot

/-- Every string `getScrambledText` produces preserves non-alphabet
characters in place. -/
lemma getScrambledText_preserves (cfg : MainCfg) (rand : ℕ → ℚ) (k : ℕ)
    (hpres : cfg.preserveOriginal = true) (hcr : cfg.customRandom = none)
    (hchars : cfg.chars ≠ []) (hrand : ∀ k, 0 ≤ rand k ∧ rand k < 1) :
    PreservesNonAlphabet cfg (getScrambledText cfg rand k).1 := by
  intro i c hi hc
  obtain ⟨hlen, hsome, hpresv⟩ :=
    getScrambledGo_spec cfg rand hpres hcr hchars hrand cfg.text 0 k
  obtain ⟨_, hjget⟩ := joinArr_get _ hsome
  show (joinArr (getScrambledGo cfg rand cfg.text 0 k).1).get? i = some c
  rw [hjget i, hpresv i c hi hc]
  rfl

/-- Every string the main `updateText` produces preserves non-alphabet
characters in place. -/
lemma updateTextMain_preserves (cfg : MainCfg) (rand : ℕ → ℚ) (p : ℚ)
    (k : ℕ)
    (hpres : cfg.preserveOriginal = true) (hcr : cfg.customRandom = none)
    (hchars : cfg.chars ≠ []) (hrand : ∀ k, 0 ≤ rand k ∧ rand k < 1) :
    PreservesNonAlphabet cfg (updateTextMain cfg rand p k).1 := by
  intro i c hi hc
  obtain ⟨hlen, hsome, hpresv⟩ :=
    updateTextMainGo_spec cfg rand cfg.text.length
      (Int.ceil ((cfg.text.length : ℚ) * p)) hpres hcr hchars hrand
      cfg.text 0 k
  obtain ⟨_, hjget⟩ := joinArr_get _ hsome
  show (joinArr (updateTextMainGo cfg rand cfg.text.length
      (Int.ceil ((cfg.text.length : ℚ) * p)) cfg.text 0 k).1).get? i = some c
  rw [hjget i, hpresv i c hi hc]
  rfl

/-- The final text trivially preserves itself. -/
lemma finalText_preserves (cfg : MainCfg) :
    PreservesNonAlphabet cfg cfg.text :=
  fun _ _ hi _ => hi

/-- `handleIteration` appends at most a final-text write. -/
lemma handleIteration_writes_cases (cfg : MainCfg) (t : ℚ) (r : MainRun) :
    (handleIteration cfg t r).writes = r.writes
    ∨ (handleIteration cfg t r).writes = r.writes ++ [cfg.text] := by
  unfold handleIteration
  cases cfg.iteration <;> simp [scheduleFrame, writeTarget]

/-- The active phase appends either a final-text write or one
`updateText` frame. -/
lemma animateMainActive_writes_cases (cfg : MainCfg) (rand : ℕ → ℚ)
    (t : ℚ) (r : MainRun) :
    (animateMainActive cfg rand t r).writes = r.writes
    ∨ (animateMainActive cfg rand t r).writes = r.writes ++ [cfg.text]
    ∨ ∃ p k, (animateMainActive cfg rand t r).writes
        = r.writes ++ [(updateTextMain cfg rand p k).1] := by
  unfold animateMainActive
  by_cases h : (r.st.direction = 1
        ∧ 1 ≤ min ((t - jsNumber r.st.startTime) / cfg.duration) 1)
      ∨ (r.st.direction = -1
        ∧ min ((t - jsNumber r.st.startTime) / cfg.duration) 1 ≤ 0)
  · rw [if_pos h]
    rcases handleIteration_writes_cases cfg t r with hh | hh
    · exact Or.inl hh
    · exact Or.inr (Or.inl hh)
  · rw [if_neg h]
    refine Or.inr (Or.inr ⟨cfg.ease (if r.st.direction = 1 then
        min ((t - jsNumber r.st.startTime) / cfg.duration) 1
      else 1 - min ((t - jsNumber r.st.startTime) / cfg.duration) 1),
      r.rngK, ?_⟩)
    simp [scheduleFrame, writeTarget]

/-- One `animate` call only appends writes of the three producible
shapes: the final text, a `getScrambledText` frame, or an `updateText`
frame. -/
lemma animateMain_writes_cases (cfg : MainCfg) (rand : ℕ → ℚ) (t : ℚ)
    (r : MainRun) :
    ∃ tailw : List (List Char),
      (animateMain cfg rand t r).writes = r.writes ++ tailw
      ∧ ∀ w ∈ tailw, w = cfg.text
          ∨ (∃ k, w = (getScrambledText cfg rand k).1)
          ∨ (∃ p k, w = (updateTextMain cfg rand p k).1) := by
  have hmem2 : ∀ (a b w : List Char), w ∈ [a, b] → w = a ∨ w = b := by
    intro a b w hw
    simpa using hw
  have hmem1 : ∀ (a w : List Char), w ∈ [a] → w = a := by
    intro a w hw
    simpa using hw
  unfold animateMain
  by_cases hv : cfg.inView = false
  · rw [if_pos hv]
    refine ⟨[cfg.text], by simp [writeTarget], ?_⟩
    intro w hw
    exact Or.inl (hmem1 _ _ hw)
  · rw [if_neg hv]
    dsimp only
    by_cases hf : isFalsyOptQ r.st.delayStartTime
    · rw [if_pos hf]
      set r1 : MainRun := writeTarget (getScrambledText cfg rand r.rngK).1
        { r with st := { r.st with delayStartTime := some t },
                 rngK := (getScrambledText cfg rand r.rngK).2 } with hr1
      have hr1w : r1.writes
          = r.writes ++ [(getScrambledText cfg rand r.rngK).1] := by
        simp [hr1, writeTarget]
      by_cases hd : r1.st.isInDelayPhase = true
      · rw [if_pos hd]
        by_cases hlt : t - jsNumber r1.st.delayStartTime < cfg.delay
        · rw [if_pos hlt]
          refine ⟨[(getScrambledText cfg rand r.rngK).1,
            (getScrambledText cfg rand r1.rngK).1], ?_, ?_⟩
          · simp [scheduleFrame, writeTarget, hr1w]
          · intro w hw
            rcases hmem2 _ _ _ hw with hw | hw
            · exact Or.inr (Or.inl ⟨r.rngK, hw⟩)
            · exact Or.inr (Or.inl ⟨r1.rngK, hw⟩)
        · rw [if_neg hlt]
          set r2 : MainRun := { r1 with st := { r1.st with
            isInDelayPhase := false, startTime := some t } } with hr2
          have hr2w : r2.writes
              = r.writes ++ [(getScrambledText cfg rand r.rngK).1] := by
            simp [hr2, hr1w]
          rcases animateMainActive_writes_cases cfg rand t r2 with hh | hh | hh
          · refine ⟨[(getScrambledText cfg rand r.rngK).1], ?_, ?_⟩
            · rw [hh, hr2w]
            · intro w hw
              exact Or.inr (Or.inl ⟨r.rngK, hmem1 _ _ hw⟩)
          · refine ⟨[(getScrambledText cfg rand r.rngK).1, cfg.text], ?_, ?_⟩
            · rw [hh, hr2w]; simp
            · intro w hw
              rcases hmem2 _ _ _ hw with hw | hw
              · exact Or.inr (Or.inl ⟨r.rngK, hw⟩)
              · exact Or.inl hw
          · obtain ⟨p, k, hh⟩ := hh
            refine ⟨[(getScrambledText cfg rand r.rngK).1,
              (updateTextMain cfg rand p k).1], ?_, ?_⟩
            · rw [hh, hr2w]; simp
            · intro w hw
              rcases hmem2 _ _ _ hw with hw | hw
              · exact Or.inr (Or.inl ⟨r.rngK, hw⟩)
              · exact Or.inr (Or.inr ⟨p, k, hw⟩)
      · rw [if_neg hd]
        rcases animateMainActive_writes_cases cfg rand t r1 with hh | hh | hh
        · refine ⟨[(getScrambledText cfg rand r.rngK).1], ?_, ?_⟩
          · rw [hh, hr1w]
          · intro w hw
            exact Or.inr (Or.inl ⟨r.rngK, hmem1 _ _ hw⟩)
        · refine ⟨[(getScrambledText cfg rand r.rngK).1, cfg.text], ?_, ?_⟩
          · rw [hh, hr1w]; simp
          · intro w hw
            rcases hmem2 _ _ _ hw with hw | hw
            · exact Or.inr (Or.inl ⟨r.rngK, hw⟩)
            · exact Or.inl hw
        · obtain ⟨p, k, hh⟩ := hh
          refine ⟨[(getScrambledText cfg rand r.rngK).1,
            (updateTextMain cfg rand p k).1], ?_, ?_⟩
          · rw [hh, hr1w]; simp
          · intro w hw
            rcases hmem2 _ _ _ hw with hw | hw
            · exact Or.inr (Or.inl ⟨r.rngK, hw⟩)
            · exact Or.inr (Or.inr ⟨p, k, hw⟩)
    · rw [if_neg hf]
      by_cases hd : r.st.isInDelayPhase = true
      · rw [if_pos hd]
        by_cases hlt : t - jsNumber r.st.delayStartTime < cfg.delay
        · rw [if_pos hlt]
          refine ⟨[(getScrambledText cfg rand r.rngK).1], ?_, ?_⟩
          · simp [scheduleFrame, writeTarget]
          · intro w hw
            exact Or.inr (Or.inl ⟨r.rngK, hmem1 _ _ hw⟩)
        · rw [if_neg hlt]
          set r2 : MainRun := { r with st := { r.st with
            isInDelayPhase := false, startTime := some t } } with hr2
          have hr2w : r2.writes = r.writes := by simp [hr2]
          rcases animateMainActive_writes_cases cfg rand t r2 with hh | hh | hh
          · exact ⟨[], by rw [hh, hr2w]; simp, by simp⟩
          · refine ⟨[cfg.text], ?_, ?_⟩
            · rw [hh, hr2w]
            · intro w hw
              exact Or.inl (hmem1 _ _ hw)
          · obtain ⟨p, k, hh⟩ := hh
            refine ⟨[(updateTextMain cfg rand p k).1], ?_, ?_⟩
            · rw [hh, hr2w]
            · intro w hw
              exact Or.inr (Or.inr ⟨p, k, hmem1 _ _ hw⟩)
      · rw [if_neg hd]
        rcases animateMainActive_writes_cases cfg rand t r with hh | hh | hh
        · exact ⟨[], by rw [hh]; simp, by simp⟩
        · refine ⟨[cfg.text], ?_, ?_⟩
          · rw [hh]
          · intro w hw
            exact Or.inl (hmem1 _ _ hw)
        · obtain ⟨p, k, hh⟩ := hh
          refine ⟨[(updateTextMain cfg rand p k).1], ?_, ?_⟩
          · rw [hh]
          · intro w hw
            exact Or.inr (Or.inr ⟨p, k, hmem1 _ _ hw⟩)

/-- Frame-loop invariant: under the default configuration shape every
write the loop ever makes preserves non-alphabet characters. -/
lemma runMain_writes_preserve (cfg : MainCfg) (rand : ℕ → ℚ)
    (hpres : cfg.preserveOriginal = true) (hcr : cfg.customRandom = none)
    (hchars : cfg.chars ≠ []) (hrand : ∀ k, 0 ≤ rand k ∧ rand k < 1) :
    ∀ (ts : List ℚ) (r : MainRun),
      (∀ w ∈ r.writes, PreservesNonAlphabet cfg w) →
      ∀ w ∈ (runMain cfg rand ts r).writes, PreservesNonAlphabet cfg w := by
  intro ts
  induction ts with
  | nil => intro r hr; exact hr
  | cons t rest ih =>
    intro r hr
    have hstep : ∀ w ∈ (frameStepMain cfg rand r t).writes,
        PreservesNonAlphabet cfg w := by
      unfold frameStepMain
      rcases hp : r.pending with _ | id
      · exact hr
      · obtain ⟨tailw, heq, htail⟩ :=
          animateMain_writes_cases cfg rand t { r with pending := none }
        rw [heq]
        intro w hw
        rcases List.mem_append.mp hw with hw | hw
        · exact hr w hw
        · rcases htail w hw with hw' | hw' | hw'
          · rw [hw']; exact finalText_preserves cfg
          · obtain ⟨k, hw'⟩ := hw'
            rw [hw']
            exact getScrambledText_preserves cfg rand k hpres hcr hchars hrand
          · obtain ⟨p, k, hw'⟩ := hw'
            rw [hw']
            exact updateTextMain_preserves cfg rand p k hpres hcr hchars hrand
    exact ih (frameStepMain cfg rand r t) hstep

/-- C10: alphabet membership for the preserve-original check is exact,
case-sensitive character equality against the configured `chars` string
(`charSet = new Set(chars)` and `charSet.has(originalChar)`,
`src/src/scrambleText.ts` lines 66 and 79/94).  Under the default
configuration (`chars = 'ABCDEFGHIJKLMNOPQRSTUVWXYZ'`,
`preserveOriginal = true`, no `customRandom`), every character of the
text outside that uppercase set — lowercase letters, digits, punctuation
— is displayed verbatim at its own position in every frame the run ever
writes, and is never scrambled. -/
theorem c10_non_alphabet_displayed_verbatim (cfg : MainCfg)
    (rand : ℕ → ℚ) (ts : List ℚ) (tgt0 : List Char)
    (hpres : cfg.preserveOriginal = true) (hcr : cfg.customRandom = none)
    (hchars : cfg.chars = defaultChars)
    (hrand : ∀ k, 0 ≤ rand k ∧ rand k < 1) :
    ∀ w ∈ (runMain cfg rand ts (scrambleTextMainSetup cfg tgt0)).writes,
      ∀ i c, cfg.text.get? i = some c → c ∉ cfg.chars → w.get? i = some c := by
  have hne : cfg.chars ≠ [] := by rw [hchars]; decide
  have hsetup : ∀ w ∈ (scrambleTextMainSetup cfg tgt0).writes,
      PreservesNonAlphabet cfg w := by
    unfold scrambleTextMainSetup
    by_cases h : cfg.inView = true
    · rw [if_pos h]; intro w hw; simp [scheduleFrame, mkMainRun] at hw
    · rw [if_neg h]; intro w hw; simp [mkMainRun] at hw
  exact runMain_writes_preserve cfg rand hpres hcr hne hrand ts
    (scrambleTextMainSetup cfg tgt0) hsetup

/-- C10 witness: a two-frame default-configuration run on text `"Hi!"`
— the lowercase `'i'` and the `'!'` are outside the uppercase alphabet
and appear verbatim in every written frame. -/
theorem c10_non_alphabet_displayed_verbatim_witness :
    ((cfgMainDefault "Hi!".data).preserveOriginal = true
      ∧ (cfgMainDefault "Hi!".data).customRandom = none
      ∧ (cfgMainDefault "Hi!".data).chars = defaultChars
      ∧ (∀ k, 0 ≤ randZero k ∧ randZero k < 1))
    ∧ (∀ w ∈ (runMain (cfgMainDefault "Hi!".data) randZero [1, 50]
          (scrambleTextMainSetup (cfgMainDefault "Hi!".data) [])).writes,
        ∀ i c, (cfgMainDefault "Hi!".data).text.get? i = some c →
          c ∉ (cfgMainDefault "Hi!".data).chars → w.get? i = some c) :=
  ⟨⟨rfl, rfl, rfl, fun _ => ⟨le_refl 0, by norm_num [randZero]⟩⟩,
    c10_non_alphabet_displayed_verbatim (cfgMainDefault "Hi!".data)
      randZero [1, 50] [] rfl rfl rfl
      (fun _ => ⟨le_refl 0, by norm_num [randZero]⟩)⟩

/-- `jsNumber` on a defined timestamp. -/
lemma jsNumber_some (q : ℚ) : jsNumber (some q) = q := rfl

/-- `Array.join('')` of an empty array. -/
lemma joinArr_nil : joinArr [] = [] := rfl

/-- One `animate` frame of the part variant on an empty text: it never
throws, appends only empty writes or a re-display of the cached join,
keeps or empties the cache, and fires the completion callback exactly
when the frame is past the delay phase and
`elapsed = timestamp - startTime` has reached `duration`; any
non-completing frame schedules another one. -/
lemma animatePart_empty_step (cfg : PartCfg) (rand : ℕ → ℚ)
    (htext : cfg.text = []) (hview : cfg.inView = true) (t : ℚ)
    (r : PartRun) :
    ∃ r', animatePart cfg rand t r = some r'
      ∧ (∃ tailw, r'.writes = r.writes ++ tailw
          ∧ ∀ w ∈ tailw, w = [] ∨ w = joinArr r.cache)
      ∧ (r'.cache = [] ∨ r'.cache = r.cache)
      ∧ (r'.completions = r.completions ∨ r'.completions = r.completions + 1)
      ∧ (r'.completions = r.completions + 1 ↔
          ¬ (t - jsNumber r'.delayStartTime < cfg.delay)
          ∧ cfg.duration ≤ t - jsNumber r'.startTime)
      ∧ (r'.completions = r.completions → r'.pending.isSome = true) := by
  have hupd : ∀ (e : ℚ) (c : List (Option Char)),
      updateTextPart cfg e c = some [] := by
    intro e c
    unfold updateTextPart
    rw [htext]
    rfl
  have hinitc : ∀ k, initCacheGo cfg.chars rand cfg.text k = ([], k) := by
    intro k
    rw [htext]
    rfl
  have hrefresh : ∀ (e : ℚ) (c : List (Option Char)) (k : ℕ),
      refreshCacheGo cfg.chars rand cfg.text.length cfg.duration
        cfg.rightToLeft e cfg.text c 0 k = (c, k) := by
    intro e c k
    rw [htext]
    rfl
  have hnv : ¬ (cfg.inView = false) := by simp [hview]
  unfold animatePart
  rw [if_neg hnv]
  try dsimp only
  by_cases hf : isFalsyOptQ r.delayStartTime = true
  · rw [if_pos hf, hinitc]
    simp only [writeTargetP, joinArr_nil, jsNumber_some]
    by_cases hd : t - t < cfg.delay
    · rw [if_pos hd]
      refine ⟨_, rfl, ⟨[[], []], by simp [schedulePart, writeTargetP],
        fun w hw => Or.inl (by simpa using hw)⟩, ?_, ?_, ?_, ?_⟩
      · simp [schedulePart, writeTargetP]
      · simp [schedulePart, writeTargetP]
      · simp only [schedulePart, writeTargetP, jsNumber_some]
        constructor
        · intro h
          exact absurd h (by omega)
        · rintro ⟨h1, _⟩
          exact absurd hd h1
      · intro _
        simp [schedulePart, writeTargetP]
    · rw [if_neg hd]
      by_cases hst : r.startTime = none
      · rw [if_pos hst]
        try simp only [jsNumber_some]
        rw [hrefresh, hupd]
        try dsimp only
        by_cases hth : cfg.speed ≤ t - t
        · rw [if_pos hth]
          by_cases hdur : t - t < cfg.duration
          · rw [if_pos hdur]
            refine ⟨_, rfl, ⟨[[], []], by simp [schedulePart, writeTargetP],
              fun w hw => Or.inl (by simpa using hw)⟩, ?_, ?_, ?_, ?_⟩
            · simp [schedulePart, writeTargetP]
            · simp [schedulePart, writeTargetP]
            · simp only [schedulePart, writeTargetP, jsNumber_some]
              constructor
              · intro h
                exact absurd h (by omega)
              · rintro ⟨_, h2⟩
                exact absurd hdur (not_lt.mpr h2)
            · intro _
              simp [schedulePart, writeTargetP]
          · rw [if_neg hdur, htext]
            refine ⟨_, rfl, ⟨[[], [], []], by simp [writeTargetP],
              fun w hw => Or.inl (by simpa using hw)⟩, ?_, ?_, ?_, ?_⟩
            · simp [writeTargetP]
            · simp [writeTargetP]
            · simp only [writeTargetP, jsNumber_some]
              constructor
              · intro _
                exact ⟨hd, not_lt.mp hdur⟩
              · intro _
                trivial
            · intro h
              simp [writeTargetP] at h
        · rw [if_neg hth]
          by_cases hdur : t - t < cfg.duration
          · rw [if_pos hdur]
            refine ⟨_, rfl, ⟨[[], []], by simp [schedulePart, writeTargetP],
              fun w hw => Or.inl (by simpa using hw)⟩, ?_, ?_, ?_, ?_⟩
            · simp [schedulePart, writeTargetP]
            · simp [schedulePart, writeTargetP]
            · simp only [schedulePart, writeTargetP, jsNumber_some]
              constructor
              · intro h
                exact absurd h (by omega)
              · rintro ⟨_, h2⟩
                exact absurd hdur (not_lt.mpr h2)
            · intro _
              simp [schedulePart, writeTargetP]
          · rw [if_neg hdur, htext]
            refine ⟨_, rfl, ⟨[[], [], []], by simp [writeTargetP],
              fun w hw => Or.inl (by simpa using hw)⟩, ?_, ?_, ?_, ?_⟩
            · simp [writeTargetP]
            · simp [writeTargetP]
            · simp only [writeTargetP, jsNumber_some]
              constructor
              · intro _
                exact ⟨hd, not_lt.mp hdur⟩
              · intro _
                trivial
            · intro h
              simp [writeTargetP] at h
      · rw [if_neg hst]
        rw [hrefresh, hupd]
        try dsimp only
        by_cases hth : cfg.speed ≤ t - t
        · rw [if_pos hth]
          by_cases hdur : t - jsNumber r.startTime < cfg.duration
          · rw [if_pos hdur]
            refine ⟨_, rfl, ⟨[[], []], by simp [schedulePart, writeTargetP],
              fun w hw => Or.inl (by simpa using hw)⟩, ?_, ?_, ?_, ?_⟩
            · simp [schedulePart, writeTargetP]
            · simp [schedulePart, writeTargetP]
            · simp only [schedulePart, writeTargetP, jsNumber_some]
              constructor
              · intro h
                exact absurd h (by omega)
              · rintro ⟨_, h2⟩
                exact absurd hdur (not_lt.mpr h2)
            · intro _
              simp [schedulePart, writeTargetP]
          · rw [if_neg hdur, htext]
            refine ⟨_, rfl, ⟨[[], [], []], by simp [writeTargetP],
              fun w hw => Or.inl (by simpa using hw)⟩, ?_, ?_, ?_, ?_⟩
            · simp [writeTargetP]
            · simp [writeTargetP]
            · simp only [writeTargetP, jsNumber_some]
              constructor
              · intro _
                exact ⟨hd, not_lt.mp hdur⟩
              · intro _
                trivial
            · intro h
              simp [writeTargetP] at h
        · rw [if_neg hth]
          by_cases hdur : t - jsNumber r.startTime < cfg.duration
          · rw [if_pos hdur]
            refine ⟨_, rfl, ⟨[[], []], by simp [schedulePart, writeTargetP],
              fun w hw => Or.inl (by simpa using hw)⟩, ?_, ?_, ?_, ?_⟩
            · simp [schedulePart, writeTargetP]
            · simp [schedulePart, writeTargetP]
            · simp only [schedulePart, writeTargetP, jsNumber_some]
              constructor
              · intro h
                exact absurd h (by omega)
              · rintro ⟨_, h2⟩
                exact absurd hdur (not_lt.mpr h2)
            · intro _
              simp [schedulePart, writeTargetP]
          · rw [if_neg hdur, htext]
            refine ⟨_, rfl, ⟨[[], [], []], by simp [writeTargetP],
              fun w hw => Or.inl (by simpa using hw)⟩, ?_, ?_, ?_, ?_⟩
            · simp [writeTargetP]
            · simp [writeTargetP]
            · simp only [writeTargetP, jsNumber_some]
              constructor
              · intro _
                exact ⟨hd, not_lt.mp hdur⟩
              · intro _
                trivial
            · intro h
              simp [writeTargetP] at h
  · rw [if_neg hf]
    by_cases hd : t - jsNumber r.delayStartTime < cfg.delay
    · rw [if_pos hd]
      refine ⟨_, rfl, ⟨[joinArr r.cache],
        by simp [schedulePart, writeTargetP],
        fun w hw => Or.inr (by simpa using hw)⟩, ?_, ?_, ?_, ?_⟩
      · simp [schedulePart, writeTargetP]
      · simp [schedulePart, writeTargetP]
      · simp only [schedulePart, writeTargetP]
        constructor
        · intro h
          exact absurd h (by omega)
        · rintro ⟨h1, _⟩
          exact absurd hd h1
      · intro _
        simp [schedulePart, writeTargetP]
    · rw [if_neg hd]
      by_cases hst : r.startTime = none
      · rw [if_pos hst]
        try simp only [jsNumber_some]
        rw [hrefresh, hupd]
        try dsimp only
        by_cases hth : cfg.speed ≤ t - r.lastRandomUpdateTime
        · rw [if_pos hth]
          by_cases hdur : t - t < cfg.duration
          · rw [if_pos hdur]
            refine ⟨_, rfl, ⟨[[]], by simp [schedulePart, writeTargetP],
              fun w hw => Or.inl (by simpa using hw)⟩, ?_, ?_, ?_, ?_⟩
            · simp [schedulePart, writeTargetP]
            · simp [schedulePart, writeTargetP]
            · simp only [schedulePart, writeTargetP, jsNumber_some]
              constructor
              · intro h
                exact absurd h (by omega)
              · rintro ⟨_, h2⟩
                exact absurd hdur (not_lt.mpr h2)
            · intro _
              simp [schedulePart, writeTargetP]
          · rw [if_neg hdur, htext]
            refine ⟨_, rfl, ⟨[[], []], by simp [writeTargetP],
              fun w hw => Or.inl (by simpa using hw)⟩, ?_, ?_, ?_, ?_⟩
            · simp [writeTargetP]
            · simp [writeTargetP]
            · simp only [writeTargetP, jsNumber_some]
              constructor
              · intro _
                exact ⟨hd, not_lt.mp hdur⟩
              · intro _
                trivial
            · intro h
              simp [writeTargetP] at h
        · rw [if_neg hth]
          by_cases hdur : t - t < cfg.duration
          · rw [if_pos hdur]
            refine ⟨_, rfl, ⟨[[]], by simp [schedulePart, writeTargetP],
              fun w hw => Or.inl (by simpa using hw)⟩, ?_, ?_, ?_, ?_⟩
            · simp [schedulePart, writeTargetP]
            · simp [schedulePart, writeTargetP]
            · simp only [schedulePart, writeTargetP, jsNumber_some]
              constructor
              · intro h
                exact absurd h (by omega)
              · rintro ⟨_, h2⟩
                exact absurd hdur (not_lt.mpr h2)
            · intro _
              simp [schedulePart, writeTargetP]
          · rw [if_neg hdur, htext]
            refine ⟨_, rfl, ⟨[[], []], by simp [writeTargetP],
              fun w hw => Or.inl (by simpa using hw)⟩, ?_, ?_, ?_, ?_⟩
            · simp [writeTargetP]
            · simp [writeTargetP]
            · simp only [writeTargetP, jsNumber_some]
              constructor
              · intro _
                exact ⟨hd, not_lt.mp hdur⟩
              · intro _
                trivial
            · intro h
              simp [writeTargetP] at h
      · rw [if_neg hst]
        rw [hrefresh, hupd]
        try dsimp only
        by_cases hth : cfg.speed ≤ t - r.lastRandomUpdateTime
        · rw [if_pos hth]
          by_cases hdur : t - jsNumber r.startTime < cfg.duration
          · rw [if_pos hdur]
            refine ⟨_, rfl, ⟨[[]], by simp [schedulePart, writeTargetP],
              fun w hw => Or.inl (by simpa using hw)⟩, ?_, ?_, ?_, ?_⟩
            · simp [schedulePart, writeTargetP]
            · simp [schedulePart, writeTargetP]
            · simp only [schedulePart, writeTargetP, jsNumber_some]
              constructor
              · intro h
                exact absurd h (by omega)
              · rintro ⟨_, h2⟩
                exact absurd hdur (not_lt.mpr h2)
            · intro _
              simp [schedulePart, writeTargetP]
          · rw [if_neg hdur, htext]
            refine ⟨_, rfl, ⟨[[], []], by simp [writeTargetP],
              fun w hw => Or.inl (by simpa using hw)⟩, ?_, ?_, ?_, ?_⟩
            · simp [writeTargetP]
            · simp [writeTargetP]
            · simp only [writeTargetP, jsNumber_some]
              constructor
              · intro _
                exact ⟨hd, not_lt.mp hdur⟩
              · intro _
                trivial
            · intro h
              simp [writeTargetP] at h
        · rw [if_neg hth]
          by_cases hdur : t - jsNumber r.startTime < cfg.duration
          · rw [if_pos hdur]
            refine ⟨_, rfl, ⟨[[]], by simp [schedulePart, writeTargetP],
              fun w hw => Or.inl (by simpa using hw)⟩, ?_, ?_, ?_, ?_⟩
            · simp [schedulePart, writeTargetP]
            · simp [schedulePart, writeTargetP]
            · simp only [schedulePart, writeTargetP, jsNumber_some]
              constructor
              · intro h
                exact absurd h (by omega)
              · rintro ⟨_, h2⟩
                exact absurd hdur (not_lt.mpr h2)
            · intro _
              simp [schedulePart, writeTargetP]
          · rw [if_neg hdur, htext]
            refine ⟨_, rfl, ⟨[[], []], by simp [writeTargetP],
              fun w hw => Or.inl (by simpa using hw)⟩, ?_, ?_, ?_, ?_⟩
            · simp [writeTargetP]
            · simp [writeTargetP]
            · simp only [writeTargetP, jsNumber_some]
              constructor
              · intro _
                exact ⟨hd, not_lt.mp hdur⟩
              · intro _
                trivial
            · intro h
              simp [writeTargetP] at h

/-- Frame-loop invariant for an empty text: a run over any timestamp
schedule never throws, and every write it ever makes — with an
all-empty write log and empty cache to start from — is the empty
string. -/
lemma runPart_empty_text (cfg : PartCfg) (rand : ℕ → ℚ)
    (htext : cfg.text = []) (hview : cfg.inView = true) :
    ∀ (ts : List ℚ) (r : PartRun),
      (∀ w ∈ r.writes, w = []) → r.cache = [] →
      ∃ r', runPart cfg rand ts r = some r'
        ∧ (∀ w ∈ r'.writes, w = []) ∧ r'.cache = [] := by
  intro ts
  induction ts with
  | nil =>
    intro r hw hc
    exact ⟨r, rfl, hw, hc⟩
  | cons t rest ih =>
    intro r hw hc
    show ∃ r', (t :: rest).foldl (frameStepPart cfg rand) (some r) = some r' ∧ _
    rw [List.foldl_cons]
    rcases hp : r.pending with _ | id
    · have hstep : frameStepPart cfg rand (some r) t = some r := by
        simp [frameStepPart, hp]
      rw [hstep]
      exact ih r hw hc
    · obtain ⟨r'', heq, ⟨tailw, hwr, htl⟩, hcache, _, _, _⟩ :=
        animatePart_empty_step cfg rand htext hview t { r with pending := none }
      have hstep : frameStepPart cfg rand (some r) t = some r'' := by
        simp [frameStepPart, hp, heq]
      rw [hstep]
      apply ih r''
      · intro w hwmem
        rw [hwr] at hwmem
        rcases List.mem_append.mp hwmem with h | h
        · exact hw w h
        · rcases htl w h with h1 | h1
          · exact h1
          · rw [h1]
            show joinArr ({ r with pending := none } : PartRun).cache = []
            have : ({ r with pending := none } : PartRun).cache = r.cache := rfl
            rw [this, hc]
            rfl
      · rcases hcache with h | h
        · exact h
        · rw [h]
          exact hc

/-- C9 as amended, universal form: if the target text is empty then over
every timestamp schedule the run never throws and every string it ever
writes — the setup pre-render included — is the empty string; and at
every single frame, on any state, the engine reports completion exactly
when the frame is past the delay phase and
`elapsed = timestamp - startTime` has reached `totalDurationMs`
(so never at the first tick of a positive duration, whose elapsed is 0),
while every non-completing frame schedules another one. -/
theorem c9_empty_text_universal (cfg : PartCfg) (rand : ℕ → ℚ)
    (htext : cfg.text = []) (hview : cfg.inView = true) :
    (∀ (ts : List ℚ) (tgt0 : List Char),
      ∃ r', runPart cfg rand ts (scrambleTextPartSetup cfg rand tgt0)
          = some r'
        ∧ ∀ w ∈ r'.writes, w = [])
    ∧ (∀ (t : ℚ) (r : PartRun),
      ∃ r', animatePart cfg rand t r = some r'
        ∧ (r'.completions = r.completions
            ∨ r'.completions = r.completions + 1)
        ∧ (r'.completions = r.completions + 1 ↔
            ¬ (t - jsNumber r'.delayStartTime < cfg.delay)
            ∧ cfg.duration ≤ t - jsNumber r'.startTime)
        ∧ (r'.completions = r.completions → r'.pending.isSome = true)) := by
  constructor
  · intro ts tgt0
    have hsw : ∀ w ∈ (scrambleTextPartSetup cfg rand tgt0).writes, w = [] := by
      unfold scrambleTextPartSetup
      rw [htext, if_pos hview]
      intro w hw
      simp [schedulePart, writeTargetP, mkPartRun, initCacheGo, preInitGo,
        joinArr] at hw
      exact hw
    have hsc : (scrambleTextPartSetup cfg rand tgt0).cache = [] := by
      unfold scrambleTextPartSetup
      rw [htext, if_pos hview]
      rfl
    obtain ⟨r', h1, h2, _⟩ :=
      runPart_empty_text cfg rand htext hview ts
        (scrambleTextPartSetup cfg rand tgt0) hsw hsc
    exact ⟨r', h1, h2⟩
  · intro t r
    obtain ⟨r', heq, _, _, hdi, hiff, hpend⟩ :=
      animatePart_empty_step cfg rand htext hview t r
    exact ⟨r', heq, hdi, hiff, hpend⟩

/-- C9 witness: the universal empty-text behaviour at the source-default
configuration and the all-zero random stream. -/
theorem c9_empty_text_universal_witness :
    ((cfgPartDefault []).text = [] ∧ (cfgPartDefault []).inView = true)
    ∧ ((∀ (ts : List ℚ) (tgt0 : List Char),
        ∃ r', runPart (cfgPartDefault []) randZero ts
            (scrambleTextPartSetup (cfgPartDefault []) randZero tgt0)
            = some r'
          ∧ ∀ w ∈ r'.writes, w = [])
      ∧ (∀ (t : ℚ) (r : PartRun),
        ∃ r', animatePart (cfgPartDefault []) randZero t r = some r'
          ∧ (r'.completions = r.completions
              ∨ r'.completions = r.completions + 1)
          ∧ (r'.completions = r.completions + 1 ↔
              ¬ (t - jsNumber r'.delayStartTime < (cfgPartDefault []).delay)
              ∧ (cfgPartDefault []).duration ≤ t - jsNumber r'.startTime)
          ∧ (r'.completions = r.completions → r'.pending.isSome = true))) :=
  ⟨⟨rfl, rfl⟩, c9_empty_text_universal (cfgPartDefault []) randZero rfl rfl⟩
